import Mathlib

/-!
Conway's Game of Life: the engine of `src/main.cpp`.

A shallow embedding of the pattern loader (`read_field_from_file`), the step
function (`next_step`, together with its function-local `static` output
buffer), the emptiness test (`is_field_empty`) and one iteration of the frame
loop of `main`, followed by the properties proved about them.

Modelling conventions.
* `std::vector` is a `List`; an access `v[i]` with `i` out of range is
  undefined behaviour in C++ and is `none` here.
* `int` and `std::size_t` indices are unbounded (`Int`, `Nat`): every grid whose
  window size `cells * CELL_SIZE` fits an `int` has dimensions far below `2^31`.
* `std::exit(EXIT_FAILURE)` in the loader is an `Except.error`.
-/

namespace Life

/-- The enum `Cell` of main.cpp:17 (the numeric value of `ALIVE` is a colour and plays no role). -/
inductive Cell where
  | DEAD
  | ALIVE
  deriving DecidableEq

/-- The alias `row_t` of main.cpp:18. -/
abbrev row_t := List Cell

/-- The alias `field_t` of main.cpp:19. -/
abbrev field_t := List row_t

/-- The constant `CELL_SIZE` of main.cpp:11. -/
def CELL_SIZE : Int := 25

/-- The constant `DEFAULT_CELLS_IN_ROW` of main.cpp:12. -/
def DEFAULT_CELLS_IN_ROW : Nat := 40

/-- The constant `DEFAULT_CELLS_IN_COL` of main.cpp:13. -/
def DEFAULT_CELLS_IN_COL : Nat := 40

/-- The read `field[y][x]`; `none` when an index is out of range. -/
def read (field : field_t) (y x : Nat) : Option Cell :=
  match field[y]? with
  | none => none
  | some row => row[x]?

/-- The assignment `field[y][x] = v`; `none` when an index is out of range. -/
def write (field : field_t) (y x : Nat) (v : Cell) : Option field_t :=
  match field[y]? with
  | none => none
  | some row => if x < row.length then some (field.set y (row.set x v)) else none

/-! ## The pattern loader (main.cpp:23-68) -/

/-- The three ways `read_field_from_file` ends the process with `EXIT_FAILURE`. -/
inductive LoadError where
  | cannot_open
  | parsing
  | empty_file
  deriving DecidableEq

/-- The local variables of `read_field_from_file` that live across loop iterations. -/
structure LoadState where
  field : field_t
  cells_in_row : Nat
  first_line : Bool

/-- The inner loop of main.cpp:49-51, `row[i] = line[i] != '.' ? ALIVE : DEAD` for
`i` from `0` below `cells_in_row`. The index `i` is below `line.length()`, so `line[i]`
is always in range. -/
def fill_row (line : List Char) (cells_in_row : Nat) (row : row_t) : row_t :=
  (List.range cells_in_row).foldl
    (fun r i => r.set i (if line.getD i '.' ≠ '.' then Cell.ALIVE else Cell.DEAD)) row

/-- One iteration of the `while (std::getline(...))` loop, main.cpp:38-54. -/
def read_line (st : LoadState) (line : List Char) : Except LoadError LoadState :=
  if !st.first_line && st.cells_in_row != line.length then
    Except.error LoadError.parsing
  else
    let cells_in_row := line.length
    let row := fill_row line cells_in_row (List.replicate cells_in_row Cell.DEAD)
    Except.ok { field := st.field ++ [row], cells_in_row := cells_in_row, first_line := false }

/-- The `while` loop of main.cpp:38-54 over the lines that `std::getline` delivers. -/
def read_lines : LoadState → List (List Char) → Except LoadError LoadState
  | st, [] => Except.ok st
  | st, line :: rest =>
    match read_line st line with
    | Except.error e => Except.error e
    | Except.ok st1 => read_lines st1 rest

/-- The function `read_field_from_file` of main.cpp:23-68 on a file that could be opened,
given as the list of its lines. -/
def read_field_from_file (lines : List (List Char)) : Except LoadError field_t :=
  match read_lines { field := [], cells_in_row := 0, first_line := true } lines with
  | Except.error e => Except.error e
  | Except.ok st => if st.first_line then Except.error LoadError.empty_file else Except.ok st.field

/-! ## The step function (main.cpp:70-111) -/

/-- The value `field.back().size()`. It is evaluated inside the loops only, where `field`
has a row, and in the initialiser of the static buffer, which `next_step` guards. -/
def back_size (field : field_t) : Nat :=
  match field.getLast? with
  | none => 0
  | some row => row.length

/-- The lambda `in_field` of main.cpp:71-73. -/
def in_field (field : field_t) (x y : Int) : Bool :=
  decide (x ≥ 0) && decide (x < (back_size field : Int)) &&
    decide (y ≥ 0) && decide (y < (field.length : Int))

/-- The table `shifts` of main.cpp:74-75, as pairs `(dx, dy)`. -/
def shifts : List (Int × Int) :=
  [(-1, -1), (-1, 0), (-1, 1), (0, 1), (1, 1), (1, 0), (1, -1), (0, -1)]

/-- The body of the loop over `shifts`, main.cpp:82-86: the read `field[ny][nx]` happens
only when `in_field(nx, ny)` holds. -/
def count_shift (field : field_t) (x y : Nat) (neighbours_alive : Nat) (s : Int × Int) :
    Option Nat :=
  let nx : Int := (x : Int) + s.1
  let ny : Int := (y : Int) + s.2
  if in_field field nx ny then
    match read field ny.toNat nx.toNat with
    | none => none
    | some c => if c ≠ Cell.DEAD then some (neighbours_alive + 1) else some neighbours_alive
  else some neighbours_alive

/-- The loop of main.cpp:80-87 computing `neighbours_alive` for the cell `(x, y)`. -/
def count_neighbours (field : field_t) (x y : Nat) : Option Nat :=
  shifts.foldlM (count_shift field x y) 0

/-- The body of the inner loop, main.cpp:80-106: count, then the `switch`. In the
`DEAD` case nothing is assigned unless the count is 3. -/
def step_cell (field : field_t) (y : Nat) (next_field : field_t) (x : Nat) : Option field_t :=
  match count_neighbours field x y with
  | none => none
  | some neighbours_alive =>
    match read field y x with
    | none => none
    | some Cell.ALIVE =>
      if neighbours_alive < 2 ∨ neighbours_alive > 3 then write next_field y x Cell.DEAD
      else write next_field y x Cell.ALIVE
    | some Cell.DEAD =>
      if neighbours_alive = 3 then write next_field y x Cell.ALIVE
      else some next_field

/-- The loop `for (int x = 0; x < field[y].size(); ++x)` of main.cpp:79-107. -/
def step_row (field : field_t) (next_field : field_t) (y : Nat) : Option field_t :=
  match field[y]? with
  | none => none
  | some row => (List.range row.length).foldlM (step_cell field y) next_field

/-- The initialiser of the `static field_t next_field` of main.cpp:77:
`field.size()` rows of `field.back().size()` value-initialised (`DEAD`) cells.
On an empty `field` the call `field.back()` is undefined. -/
def fresh_next_field (field : field_t) : Option field_t :=
  match field.getLast? with
  | none => none
  | some row => some (List.replicate field.length (List.replicate row.length Cell.DEAD))

/-- The function `next_step` of main.cpp:70-111. The first argument is the content of the
function-local `static` buffer `next_field`: `none` before the first call of the process,
afterwards what the previous call left. The returned grid is a copy of the buffer, so it
is also the content of the buffer after the call. -/
def next_step (static_next_field : Option field_t) (field : field_t) : Option field_t :=
  let buffer : Option field_t :=
    match static_next_field with
    | some b => some b
    | none => fresh_next_field field
  match buffer with
  | none => none
  | some b => (List.range field.length).foldlM (step_row field) b

/-! ## Emptiness test (main.cpp:125-130) -/

/-- The function `is_field_empty` of main.cpp:125-130. -/
def is_field_empty (field : field_t) : Bool :=
  !(field.any (fun row => row.any (fun cell => decide (cell = Cell.ALIVE))))

/-! ## The frame loop of `main` (main.cpp:132-183) -/

/-- The grid of main.cpp:133, used when no pattern file is given. -/
def default_field : field_t :=
  List.replicate DEFAULT_CELLS_IN_COL (List.replicate DEFAULT_CELLS_IN_ROW Cell.DEAD)

/-- What one frame polls: the pointer position when the left button was pressed during
the frame (`none` when it was not), and whether Enter was pressed. The position is taken
in whole pixels, for which `static_cast<int>(x / CELL_SIZE)` on the `float` coordinate is
the integer division truncating towards zero. -/
structure Input where
  click : Option (Int × Int)
  enter : Bool

/-- The variables that live across iterations of the frame loop: the grid `field`, the
flag `play`, the static buffer of `next_step`, and a ghost counter of the executions of
`field = next_step(field)` (main.cpp:179). -/
structure Sim where
  field : field_t
  play : Bool
  next_field : Option field_t
  steps : Nat
  deriving DecidableEq

/-- The click handler of main.cpp:161-168 on the pointer position `(px, py)`:
`row = int(px / CELL_SIZE)`, `column = int(py / CELL_SIZE)` (truncation towards zero),
then `field[column][row]` is flipped. A negative `int` index converts to a huge
`size_t`, hence is out of range. -/
def click_cell (field : field_t) (px py : Int) : Option field_t :=
  let row : Int := Int.tdiv px CELL_SIZE
  let column : Int := Int.tdiv py CELL_SIZE
  if row < 0 ∨ column < 0 then none
  else
    match read field column.toNat row.toNat with
    | none => none
    | some c =>
      if c = Cell.DEAD then write field column.toNat row.toNat Cell.ALIVE
      else write field column.toNat row.toNat Cell.DEAD

/-- The branch of main.cpp:157-172: the grid and the flag `play` after it. -/
def edit_phase (field : field_t) (play : Bool) (click : Option (Int × Int)) :
    Option (field_t × Bool) :=
  if !play || is_field_empty field then
    match click with
    | none => some (field, false)
    | some (px, py) =>
      match click_cell field px py with
      | none => none
      | some f => some (f, false)
  else some (field, play)

/-- One iteration of the `while` loop of main.cpp:151-183 (drawing left out). -/
def frame (s : Sim) (inp : Input) : Option Sim :=
  match edit_phase s.field s.play inp.click with
  | none => none
  | some (field, play) =>
    let play := if inp.enter then !play else play
    if play then
      match next_step s.next_field field with
      | none => none
      | some next => some { field := next, play := play, next_field := some next,
                            steps := s.steps + 1 }
    else some { field := field, play := play, next_field := s.next_field, steps := s.steps }

/-- The frame loop over a list of polled inputs. -/
def run : Sim → List Input → Option Sim
  | s, [] => some s
  | s, inp :: rest =>
    match frame s inp with
    | none => none
    | some s1 => run s1 rest

/-- The state in which `main` enters the frame loop with the grid `field`. -/
def start (field : field_t) : Sim :=
  { field := field, play := false, next_field := none, steps := 0 }

/-! ## The reference rule, as the specification words it -/

/-- The eight neighbour offsets of the specification, relative to `(row, col)`. -/
def offsets : List (Int × Int) :=
  [(-1, -1), (-1, 0), (-1, 1), (0, 1), (1, 1), (1, 0), (1, -1), (0, -1)]

/-- The number of columns of a rectangular grid: the length of its first row. -/
def cols_of (G : field_t) : Nat := (G.headD []).length

/-- Whether the position `(r, c)` lies inside `[0,rows) x [0,cols)` and holds an `ALIVE` cell. -/
def alive_at (G : field_t) (r c : Int) : Bool :=
  decide (0 ≤ r) && decide (r < (G.length : Int)) && decide (0 ≤ c) &&
    decide (c < (cols_of G : Int)) && decide (read G r.toNat c.toNat = some Cell.ALIVE)

/-- The specification's `alive_neighbors`: the offsets whose position is inside the grid and
`ALIVE`; positions outside the grid are excluded (no wrap-around). -/
def alive_neighbors (G : field_t) (row col : Nat) : Nat :=
  (offsets.map (fun d =>
    if alive_at G ((row : Int) + d.1) ((col : Int) + d.2) then 1 else 0)).sum

/-- The rule B3/S23 of the specification. -/
def rule (c : Cell) (n : Nat) : Cell :=
  match c with
  | Cell.ALIVE => if n = 2 ∨ n = 3 then Cell.ALIVE else Cell.DEAD
  | Cell.DEAD => if n = 3 then Cell.ALIVE else Cell.DEAD

/-- The specification's `step`: a new grid of identical dimensions, every cell computed
from the input grid alone. -/
def reference_step (G : field_t) : field_t :=
  (List.range G.length).map (fun row =>
    (List.range (cols_of G)).map (fun col =>
      rule ((read G row col).getD Cell.DEAD) (alive_neighbors G row col)))

/-- The cell at `(y, x)` of a grid, for positions inside it. -/
def cell (G : field_t) (y x : Nat) : Cell := (read G y x).getD Cell.DEAD

/-- What the `switch` of main.cpp:89-106 leaves in `next_field[y][x]`, given the input
cell `c`, its count `n` and the value `old` the buffer held there before. -/
def next_cell (c : Cell) (n : Nat) (old : Cell) : Cell :=
  match c with
  | Cell.ALIVE => if n < 2 ∨ n > 3 then Cell.DEAD else Cell.ALIVE
  | Cell.DEAD => if n = 3 then Cell.ALIVE else old

/-- The cell at `(y, x)` of the static buffer when `next_step` starts writing: `DEAD`
everywhere when the buffer is created by this call. -/
def buffer_cell (s : Option field_t) (y x : Nat) : Cell :=
  match s with
  | none => Cell.DEAD
  | some B => cell B y x

/-- A grid is rectangular with `rows` rows of `cols` cells. -/
def Rect (G : field_t) (rows cols : Nat) : Prop :=
  G.length = rows ∧ ∀ row ∈ G, row.length = cols

instance (G : field_t) (rows cols : Nat) : Decidable (Rect G rows cols) := by
  unfold Rect; infer_instance

/-- The static buffer has the grid's dimensions: it is created by this call, or was
created by an earlier call on a grid of these dimensions. -/
def BufferFits (s : Option field_t) (rows cols : Nat) : Prop :=
  match s with
  | none => True
  | some B => Rect B rows cols

/-- The static buffer holds no `ALIVE` cell where the grid `G` is `DEAD`: it is fresh, or
what it holds from earlier calls lies within the live cells of `G`. -/
def Settled (s : Option field_t) (G : field_t) (rows cols : Nat) : Prop :=
  BufferFits s rows cols ∧
    ∀ y x, y < rows → x < cols → cell G y x = Cell.DEAD → buffer_cell s y x = Cell.DEAD

/-- The statement `field = next_step(field)` of main.cpp:179 executed `n` times in a row,
starting with the static buffer `s` and the grid `field`. -/
def advance_n : Nat → Option field_t → field_t → Option field_t
  | 0, _, field => some field
  | n + 1, s, field =>
    match next_step s field with
    | none => none
    | some next => advance_n n (some next) next

/-- The cell a character of a pattern file stands for: `.` is dead, anything else alive. -/
def cell_of_char (ch : Char) : Cell := if ch ≠ '.' then Cell.ALIVE else Cell.DEAD

/-- The character at `(row, col)` of a list of lines, when there is one. -/
def char_at (lines : List (List Char)) (row col : Nat) : Option Char :=
  match lines[row]? with
  | none => none
  | some text => text[col]?

/-- The specification's condition for a malformed pattern: no line at all, or a line whose
length differs from the first line's. -/
def Malformed (lines : List (List Char)) : Prop :=
  lines = [] ∨ ∃ line ∈ lines, line.length ≠ (lines.headD []).length

/-- A `rows x cols` grid that is all `DEAD` except the horizontal line of three `ALIVE`
cells `(r, c-1)`, `(r, c)`, `(r, c+1)`. -/
def IsHorizontal (G : field_t) (rows cols r c : Nat) : Prop :=
  Rect G rows cols ∧ ∀ y x, y < rows → x < cols →
    cell G y x = if y = r ∧ (x + 1 = c ∨ x = c ∨ x = c + 1) then Cell.ALIVE else Cell.DEAD

/-- A `rows x cols` grid that is all `DEAD` except the vertical line of three `ALIVE`
cells `(r-1, c)`, `(r, c)`, `(r+1, c)`. -/
def IsVertical (G : field_t) (rows cols r c : Nat) : Prop :=
  Rect G rows cols ∧ ∀ y x, y < rows → x < cols →
    cell G y x = if x = c ∧ (y + 1 = r ∨ y = r ∨ y = r + 1) then Cell.ALIVE else Cell.DEAD

/-- The value the click handler of main.cpp:165-168 stores for a cell holding `c`. -/
def flip_cell (c : Cell) : Cell := if c = Cell.DEAD then Cell.ALIVE else Cell.DEAD

/-- The number of neighbour positions of the cell `(x, y)` that pass the test `in_field`
of main.cpp:84, that is, whose cell `field[ny][nx]` is read. -/
def considered (field : field_t) (x y : Nat) : Nat :=
  (shifts.map (fun s => if in_field field ((x : Int) + s.1) ((y : Int) + s.2) then 1 else 0)).sum

/-- The two operations that change the grid held by `main`: a click at a pointer position
(main.cpp:161-168) and the statement `field = next_step(field)` (main.cpp:179). -/
inductive Op where
  | toggle (px py : Int)
  | step

/-- One operation on the grid and the static buffer of `next_step`. -/
def exec_op (st : field_t × Option field_t) : Op → Option (field_t × Option field_t)
  | Op.toggle px py =>
    match click_cell st.1 px py with
    | none => none
    | some f => some (f, st.2)
  | Op.step =>
    match next_step st.2 st.1 with
    | none => none
    | some next => some (next, some next)

/-- A finite sequence of operations, in order. -/
def exec : field_t × Option field_t → List Op → Option (field_t × Option field_t)
  | st, [] => some st
  | st, op :: rest =>
    match exec_op st op with
    | none => none
    | some st1 => exec st1 rest

/-- The click of a toggle computes indices inside a `rows x cols` grid. -/
def OpInRange (rows cols : Nat) : Op → Prop
  | Op.toggle px py =>
    0 ≤ Int.tdiv px CELL_SIZE ∧ Int.tdiv px CELL_SIZE < cols ∧
      0 ≤ Int.tdiv py CELL_SIZE ∧ Int.tdiv py CELL_SIZE < rows
  | Op.step => True

/-- The grid `main` starts from: the default grid, or a successfully loaded pattern. -/
def InitialGrid (G : field_t) : Prop :=
  G = default_field ∨ ∃ lines, read_field_from_file lines = Except.ok G

/-- In the frame that starts in `s` and polls `inp`, the click, if it is handled, turns no
`ALIVE` cell `DEAD`. -/
def AddOnly (s : Sim) (inp : Input) : Prop :=
  ∀ f p, edit_phase s.field s.play inp.click = some (f, p) →
    ∀ y x, read s.field y x = some Cell.ALIVE → read f y x = some Cell.ALIVE

/-- The states of the frame loop started on `G` that are reached through frames in which
no click turns an `ALIVE` cell `DEAD`. -/
inductive AddOnlyReachable (G : field_t) : Sim → Prop where
  | init : AddOnlyReachable G (start G)
  | next (s s1 : Sim) (inp : Input) : AddOnlyReachable G s → AddOnly s inp →
      frame s inp = some s1 → AddOnlyReachable G s1

/-! ## Reading and writing cells -/

theorem Rect.row_length {G : field_t} {rows cols : Nat} (h : Rect G rows cols) {y : Nat}
    {row : row_t} (hy : G[y]? = some row) : row.length = cols :=
  h.2 row (List.getElem?_mem hy)

theorem Rect.exists_row {G : field_t} {rows cols : Nat} (h : Rect G rows cols) {y : Nat}
    (hy : y < rows) : ∃ row, G[y]? = some row ∧ row.length = cols := by
  have hlt : y < G.length := by rw [h.1]; exact hy
  exact ⟨G[y], List.getElem?_eq_getElem hlt, h.2 _ (List.getElem_mem hlt)⟩

theorem Rect.exists_read {G : field_t} {rows cols : Nat} (h : Rect G rows cols) {y x : Nat}
    (hy : y < rows) (hx : x < cols) : ∃ c, read G y x = some c := by
  obtain ⟨row, hrow, hlen⟩ := h.exists_row hy
  have hlt : x < row.length := by rw [hlen]; exact hx
  exact ⟨row[x], by simp [read, hrow, List.getElem?_eq_getElem hlt]⟩

theorem read_eq_none_of_rows {G : field_t} {y : Nat} (x : Nat) (hy : G.length ≤ y) :
    read G y x = none := by
  simp [read, List.getElem?_eq_none hy]

theorem Rect.read_eq_none_of_cols {G : field_t} {rows cols : Nat} (h : Rect G rows cols)
    (y : Nat) {x : Nat} (hx : cols ≤ x) : read G y x = none := by
  unfold read
  cases hrow : G[y]? with
  | none => rfl
  | some row =>
    have hlen := h.row_length hrow
    simp only
    exact List.getElem?_eq_none (by omega)

/-- Two rectangular grids of the same dimensions that agree at every position are equal. -/
theorem Rect.ext {A B : field_t} {rows cols : Nat} (hA : Rect A rows cols)
    (hB : Rect B rows cols)
    (h : ∀ y x, y < rows → x < cols → read A y x = read B y x) : A = B := by
  apply List.ext_getElem?
  intro y
  by_cases hy : y < rows
  · obtain ⟨ra, hra, hla⟩ := hA.exists_row hy
    obtain ⟨rb, hrb, hlb⟩ := hB.exists_row hy
    rw [hra, hrb]
    congr 1
    apply List.ext_getElem?
    intro x
    by_cases hx : x < cols
    · have := h y x hy hx
      simpa [read, hra, hrb] using this
    · rw [List.getElem?_eq_none (by omega), List.getElem?_eq_none (by omega)]
  · rw [List.getElem?_eq_none (by have := hA.1; omega),
      List.getElem?_eq_none (by have := hB.1; omega)]

theorem write_eq_some {B : field_t} {rows cols : Nat} (hB : Rect B rows cols) {y x : Nat}
    (hy : y < rows) (hx : x < cols) (v : Cell) :
    ∃ B1, write B y x v = some B1 ∧ Rect B1 rows cols ∧
      ∀ y1 x1, read B1 y1 x1 = if y1 = y ∧ x1 = x then some v else read B y1 x1 := by
  obtain ⟨row, hrow, hlen⟩ := hB.exists_row hy
  have hxl : x < row.length := by rw [hlen]; exact hx
  have hyl : y < B.length := by rw [hB.1]; exact hy
  refine ⟨B.set y (row.set x v), by simp [write, hrow, hxl], ⟨by simp [hB.1], ?_⟩, ?_⟩
  · intro r hr
    rcases List.mem_or_eq_of_mem_set hr with h1 | h1
    · exact hB.2 r h1
    · rw [h1, List.length_set]; exact hlen
  · intro y1 x1
    unfold read
    by_cases hy1 : y1 = y
    · subst hy1
      rw [List.getElem?_set_self hyl]
      by_cases hx1 : x1 = x
      · subst hx1
        simp [List.getElem?_set_self hxl]
      · have hne : x ≠ x1 := fun e => hx1 e.symm
        simp [hx1, List.getElem?_set_ne hne, hrow]
    · have hne : y ≠ y1 := fun e => hy1 e.symm
      simp [hy1, List.getElem?_set_ne hne]

/-! ## The neighbour count of `next_step` -/

theorem Rect.back_size_eq {G : field_t} {rows cols : Nat} (h : Rect G rows cols)
    (hr : 0 < rows) : back_size G = cols := by
  unfold back_size
  cases hl : G.getLast? with
  | none =>
    rw [List.getLast?_eq_none_iff] at hl
    have := h.1
    simp [hl] at this
    omega
  | some row => exact h.2 row (List.mem_of_getLast?_eq_some hl)

theorem Rect.cols_of_eq {G : field_t} {rows cols : Nat} (h : Rect G rows cols)
    (hr : 0 < rows) : cols_of G = cols := by
  obtain ⟨row, hrow, hlen⟩ := h.exists_row hr
  unfold cols_of
  cases G with
  | nil => simp at hrow
  | cons a t =>
    simp at hrow
    simp [hrow, hlen]

theorem read_some_cell {G : field_t} {y x : Nat} {c : Cell} (h : read G y x = some c) :
    cell G y x = c := by
  simp [cell, h]

/-- On a rectangular grid one pass of the loop over `shifts` never reads out of range and
adds one exactly for a neighbour position that is inside the grid and `ALIVE`. -/
theorem count_shift_eq {G : field_t} {rows cols : Nat} (h : Rect G rows cols)
    (hr : 0 < rows) (x y acc : Nat) (s : Int × Int) :
    count_shift G x y acc s =
      some (acc + if alive_at G ((y : Int) + s.2) ((x : Int) + s.1) then 1 else 0) := by
  have hb := h.back_size_eq hr
  have hc := h.cols_of_eq hr
  have hl := h.1
  unfold count_shift alive_at in_field
  simp only [hb, hc, hl]
  by_cases hin : (0 ≤ (x : Int) + s.1 ∧ (x : Int) + s.1 < cols) ∧
      (0 ≤ (y : Int) + s.2 ∧ (y : Int) + s.2 < rows)
  · obtain ⟨⟨h1, h2⟩, h3, h4⟩ := hin
    obtain ⟨c, hcell⟩ := h.exists_read (y := ((y : Int) + s.2).toNat)
      (x := ((x : Int) + s.1).toNat) (by omega) (by omega)
    cases c <;> simp [hcell, h1, h2, h3, h4]
  · have : ¬ ((0 ≤ (y : Int) + s.2 ∧ (y : Int) + s.2 < rows) ∧
        (0 ≤ (x : Int) + s.1 ∧ (x : Int) + s.1 < cols)) := fun hh => hin ⟨hh.2, hh.1⟩
    simp only [ge_iff_le, Bool.and_eq_true, decide_eq_true_eq]
    rw [if_neg (by tauto), if_neg (by tauto)]
    rfl

theorem foldlM_add {α : Type} (f : Nat → α → Option Nat) (g : α → Nat)
    (h : ∀ acc a, f acc a = some (acc + g a)) (l : List α) (acc : Nat) :
    l.foldlM f acc = some (acc + (l.map g).sum) := by
  induction l generalizing acc with
  | nil => simp
  | cons a t ih =>
    simp only [List.foldlM_cons, h, List.map_cons, List.sum_cons]
    show t.foldlM f (acc + g a) = _
    rw [ih, Nat.add_assoc]

/-- On a rectangular grid the count computed by the code is the specification's
`alive_neighbors` (the table of shifts is symmetric under exchanging `dx` and `dy`). -/
theorem count_neighbours_eq {G : field_t} {rows cols : Nat} (h : Rect G rows cols)
    (hr : 0 < rows) (x y : Nat) : count_neighbours G x y = some (alive_neighbors G y x) := by
  unfold count_neighbours
  rw [foldlM_add _ _ (fun acc s => count_shift_eq h hr x y acc s)]
  simp only [shifts, alive_neighbors, offsets, List.map_cons, List.map_nil, List.sum_cons,
    List.sum_nil]
  congr 1
  ring

/-! ## The loops of `next_step` -/

/-- A loop over `0 .. n-1` whose body never fails and carries an invariant from `k` to
`k + 1` runs to completion and establishes the invariant at `n`. -/
theorem foldlM_range_inv {α : Type} (f : α → Nat → Option α) (P : Nat → α → Prop) (n : Nat)
    (a : α) (h0 : P 0 a)
    (hstep : ∀ k b, k < n → P k b → ∃ b1, f b k = some b1 ∧ P (k + 1) b1) :
    ∃ b, (List.range n).foldlM f a = some b ∧ P n b := by
  induction n with
  | zero => exact ⟨a, by simp, h0⟩
  | succ m ih =>
    obtain ⟨b, hb, hP⟩ := ih (fun k b hk hp => hstep k b (by omega) hp)
    obtain ⟨b1, hb1, hP1⟩ := hstep m b (by omega) hP
    refine ⟨b1, ?_, hP1⟩
    rw [List.range_succ, List.foldlM_append, hb]
    simp [hb1]

/-- One execution of the loop body at `(y, x)`: it never fails and changes the buffer at
`(y, x)` only, to `next_cell`. -/
theorem step_cell_eq {G B : field_t} {rows cols : Nat} (hG : Rect G rows cols)
    (hB : Rect B rows cols) {y x : Nat} (hy : y < rows) (hx : x < cols) :
    ∃ B1, step_cell G y B x = some B1 ∧ Rect B1 rows cols ∧
      ∀ y1 x1, read B1 y1 x1 =
        if y1 = y ∧ x1 = x then
          some (next_cell (cell G y x) (alive_neighbors G y x) (cell B y x))
        else read B y1 x1 := by
  have hr : 0 < rows := by omega
  obtain ⟨c, hc⟩ := hG.exists_read hy hx
  obtain ⟨o, ho⟩ := hB.exists_read hy hx
  have hcell := read_some_cell hc
  have hold := read_some_cell ho
  unfold step_cell
  rw [count_neighbours_eq hG hr, hc, hcell, hold]
  cases c with
  | ALIVE =>
    by_cases hn : alive_neighbors G y x < 2 ∨ alive_neighbors G y x > 3
    · obtain ⟨B1, h1, h2, h3⟩ := write_eq_some hB hy hx Cell.DEAD
      exact ⟨B1, by simp [hn, h1], h2, by simpa [next_cell, hn] using h3⟩
    · obtain ⟨B1, h1, h2, h3⟩ := write_eq_some hB hy hx Cell.ALIVE
      exact ⟨B1, by simp [hn, h1], h2, by simpa [next_cell, hn] using h3⟩
  | DEAD =>
    by_cases hn : alive_neighbors G y x = 3
    · obtain ⟨B1, h1, h2, h3⟩ := write_eq_some hB hy hx Cell.ALIVE
      exact ⟨B1, by simp [hn, h1], h2, by simpa [next_cell, hn] using h3⟩
    · refine ⟨B, by simp [hn], hB, ?_⟩
      intro y1 x1
      by_cases hyx : y1 = y ∧ x1 = x
      · rw [if_pos hyx, hyx.1, hyx.2, ho]
        simp [next_cell, hn]
      · rw [if_neg hyx]

/-- The loop over `x` for the row `y`: it rewrites the row `y` of the buffer cell by cell
and leaves the other rows. -/
theorem step_row_eq {G B : field_t} {rows cols : Nat} (hG : Rect G rows cols)
    (hB : Rect B rows cols) {y : Nat} (hy : y < rows) :
    ∃ B1, step_row G B y = some B1 ∧ Rect B1 rows cols ∧
      ∀ y1 x1, read B1 y1 x1 =
        if y1 = y ∧ x1 < cols then
          some (next_cell (cell G y x1) (alive_neighbors G y x1) (cell B y x1))
        else read B y1 x1 := by
  obtain ⟨row, hrow, hlen⟩ := hG.exists_row hy
  unfold step_row
  rw [hrow]
  simp only [hlen]
  obtain ⟨B1, h1, h2, h3⟩ := foldlM_range_inv (step_cell G y)
    (fun k b => Rect b rows cols ∧ ∀ y1 x1, read b y1 x1 =
        if y1 = y ∧ x1 < k then
          some (next_cell (cell G y x1) (alive_neighbors G y x1) (cell B y x1))
        else read B y1 x1) cols B ⟨hB, by simp⟩
    (by
      intro k b hk hP
      obtain ⟨hb, hread⟩ := hP
      obtain ⟨b1, e1, r1, c1⟩ := step_cell_eq hG hb hy hk
      refine ⟨b1, e1, r1, ?_⟩
      intro y1 x1
      rw [c1 y1 x1]
      have hbk : cell b y k = cell B y k := by
        unfold cell
        rw [hread y k]
        simp
      by_cases hyx : y1 = y ∧ x1 = k
      · obtain ⟨e2, e3⟩ := hyx
        subst e2 e3
        simp [hbk]
      · rw [if_neg hyx, hread y1 x1]
        by_cases hy1 : y1 = y
        · subst hy1
          have hne : x1 ≠ k := fun e => hyx ⟨rfl, e⟩
          by_cases hlt : x1 < k
          · simp [hlt, Nat.lt_succ_of_lt hlt]
          · have : ¬ x1 < k + 1 := by omega
            simp [hlt, this]
        · simp [hy1])
  exact ⟨B1, h1, h2, h3⟩

/-- The two nested loops of `next_step` on a buffer `B` of the grid's dimensions: they
never fail, keep the dimensions, and leave `next_cell` at every position. -/
theorem step_loop_eq {G B : field_t} {rows cols : Nat} (hG : Rect G rows cols)
    (hB : Rect B rows cols) :
    ∃ R, (List.range G.length).foldlM (step_row G) B = some R ∧ Rect R rows cols ∧
      ∀ y x, y < rows → x < cols →
        read R y x = some (next_cell (cell G y x) (alive_neighbors G y x) (cell B y x)) := by
  rw [hG.1]
  obtain ⟨R, h1, h2, h3⟩ := foldlM_range_inv (step_row G)
    (fun k b => Rect b rows cols ∧ ∀ y1 x1, read b y1 x1 =
        if y1 < k ∧ x1 < cols then
          some (next_cell (cell G y1 x1) (alive_neighbors G y1 x1) (cell B y1 x1))
        else read B y1 x1) rows B ⟨hB, by simp⟩
    (by
      intro k b hk hP
      obtain ⟨hb, hread⟩ := hP
      obtain ⟨b1, e1, r1, c1⟩ := step_row_eq hG hb hk
      refine ⟨b1, e1, r1, ?_⟩
      intro y1 x1
      rw [c1 y1 x1]
      by_cases hx : x1 < cols
      · have hbk : cell b k x1 = cell B k x1 := by
          unfold cell
          rw [hread k x1]
          simp
        by_cases hy1 : y1 = k
        · subst hy1
          simp [hx, hbk]
        · rw [if_neg (fun hh => hy1 hh.1), hread y1 x1]
          by_cases hlt : y1 < k
          · simp [hlt, hx, Nat.lt_succ_of_lt hlt]
          · have : ¬ y1 < k + 1 := by omega
            simp [hlt, this]
      · rw [if_neg (fun hh => hx hh.2), hread y1 x1, if_neg (fun hh => hx hh.2),
          if_neg (fun hh => hx hh.2)])
  exact ⟨R, h1, h2, fun y x hy hx => by rw [h3 y x]; simp [hy, hx]⟩

theorem rect_replicate (rows cols : Nat) (c : Cell) :
    Rect (List.replicate rows (List.replicate cols c)) rows cols := by
  refine ⟨by simp, ?_⟩
  intro row hrow
  rw [List.eq_of_mem_replicate hrow]
  simp

theorem cell_replicate (rows cols : Nat) (c : Cell) {y x : Nat} (hy : y < rows)
    (hx : x < cols) : cell (List.replicate rows (List.replicate cols c)) y x = c := by
  simp [cell, read, List.getElem?_replicate, hy, hx]

theorem Rect.fresh_next_field_eq {G : field_t} {rows cols : Nat} (h : Rect G rows cols)
    (hr : 0 < rows) :
    fresh_next_field G = some (List.replicate rows (List.replicate cols Cell.DEAD)) := by
  unfold fresh_next_field
  cases hl : G.getLast? with
  | none =>
    rw [List.getLast?_eq_none_iff] at hl
    have := h.1
    simp [hl] at this
    omega
  | some row =>
    have := h.2 row (List.mem_of_getLast?_eq_some hl)
    simp [this, h.1]

/-- The effect of `next_step` on a rectangular grid, for every content of the static
buffer of the grid's dimensions: the call returns, the result has the grid's dimensions,
and every cell is `next_cell` of the input cell, its count and the buffer's old value. -/
theorem next_step_eq {G : field_t} {rows cols : Nat} (hG : Rect G rows cols) (hr : 0 < rows)
    (s : Option field_t) (hs : BufferFits s rows cols) :
    ∃ R, next_step s G = some R ∧ Rect R rows cols ∧
      ∀ y x, y < rows → x < cols →
        read R y x =
          some (next_cell (cell G y x) (alive_neighbors G y x) (buffer_cell s y x)) := by
  cases s with
  | none =>
    obtain ⟨R, h1, h2, h3⟩ := step_loop_eq hG (rect_replicate rows cols Cell.DEAD)
    refine ⟨R, ?_, h2, ?_⟩
    · simp only [next_step, hG.fresh_next_field_eq hr]
      exact h1
    · intro y x hy hx
      rw [h3 y x hy hx, cell_replicate rows cols Cell.DEAD hy hx]
      rfl
  | some B =>
    obtain ⟨R, h1, h2, h3⟩ := step_loop_eq hG (show Rect B rows cols from hs)
    exact ⟨R, h1, h2, h3⟩

/-! ## The code against the reference step -/

theorem next_cell_eq_rule (c : Cell) (n : Nat) (old : Cell)
    (h : c = Cell.DEAD → n ≠ 3 → old = Cell.DEAD) : next_cell c n old = rule c n := by
  cases c with
  | ALIVE =>
    unfold next_cell rule
    by_cases h1 : n = 2 ∨ n = 3
    · rw [if_neg (by omega), if_pos h1]
    · rw [if_pos (by omega), if_neg h1]
  | DEAD =>
    unfold next_cell rule
    by_cases h1 : n = 3
    · rw [if_pos h1, if_pos h1]
    · rw [if_neg h1, if_neg h1]
      exact h rfl h1

theorem rect_reference_step {G : field_t} {rows cols : Nat} (hG : Rect G rows cols)
    (hr : 0 < rows) : Rect (reference_step G) rows cols := by
  have hc := hG.cols_of_eq hr
  refine ⟨by simp [reference_step, hG.1], ?_⟩
  intro row hrow
  simp only [reference_step, List.mem_map] at hrow
  obtain ⟨y, _, rfl⟩ := hrow
  simp [hc]

theorem read_reference_step {G : field_t} {rows cols : Nat} (hG : Rect G rows cols)
    {y x : Nat} (hy : y < rows) (hx : x < cols) :
    read (reference_step G) y x = some (rule (cell G y x) (alive_neighbors G y x)) := by
  have hc := hG.cols_of_eq (by omega)
  have hyl : y < G.length := by rw [hG.1]; exact hy
  simp [read, reference_step, hc, List.getElem?_range hyl, List.getElem?_range hx, cell]

/-- When the static buffer is settled for `G`, `next_step` returns the reference step. -/
theorem next_step_settled {G : field_t} {rows cols : Nat} (hG : Rect G rows cols)
    (hr : 0 < rows) (s : Option field_t) (hs : Settled s G rows cols) :
    next_step s G = some (reference_step G) := by
  obtain ⟨R, h1, h2, h3⟩ := next_step_eq hG hr s hs.1
  rw [h1]
  congr 1
  apply Rect.ext h2 (rect_reference_step hG hr)
  intro y x hy hx
  rw [h3 y x hy hx, read_reference_step hG hy hx,
    next_cell_eq_rule _ _ _ (fun hd _ => hs.2 y x hy hx hd)]

theorem settled_none (G : field_t) (rows cols : Nat) : Settled none G rows cols :=
  ⟨trivial, fun _ _ _ _ _ => rfl⟩

theorem settled_self {G : field_t} {rows cols : Nat} (hG : Rect G rows cols) :
    Settled (some G) G rows cols :=
  ⟨hG, fun _ _ _ _ h => h⟩

theorem advance_n_settled {G : field_t} {rows cols : Nat} (hG : Rect G rows cols)
    (hr : 0 < rows) (n : Nat) (s : Option field_t) (hs : Settled s G rows cols) :
    advance_n n s G = some (reference_step^[n] G) := by
  induction n generalizing G s with
  | zero => rfl
  | succ m ih =>
    rw [advance_n, next_step_settled hG hr s hs]
    simp only [Function.iterate_succ, Function.comp_apply]
    exact ih (rect_reference_step hG hr) (some (reference_step G))
      (settled_self (rect_reference_step hG hr))

/-- Claim C1. The first call of `next_step` in a process (static buffer not yet created)
on a rectangular grid with at least one row and one column returns a grid of the same
dimensions in which a cell is `ALIVE` exactly when the input cell is `ALIVE` with 2 or 3
live neighbours or `DEAD` with exactly 3, the neighbours being counted on the input grid
over the eight offsets that fall inside the grid; every other cell is `DEAD`. -/
theorem first_next_step_is_life (G : field_t) (rows cols : Nat) (hG : Rect G rows cols)
    (hr : 1 ≤ rows) (hc : 1 ≤ cols) :
    ∃ R, next_step none G = some R ∧ Rect R rows cols ∧
      ∀ row col, row < rows → col < cols →
        (read R row col = some Cell.ALIVE ∨ read R row col = some Cell.DEAD) ∧
        (read R row col = some Cell.ALIVE ↔
          (read G row col = some Cell.ALIVE ∧
              (alive_neighbors G row col = 2 ∨ alive_neighbors G row col = 3)) ∨
            (read G row col = some Cell.DEAD ∧ alive_neighbors G row col = 3)) := by
  have _ := hc
  refine ⟨reference_step G, next_step_settled hG hr none (settled_none G rows cols),
    rect_reference_step hG hr, ?_⟩
  intro row col hrow hcol
  obtain ⟨c, hcell⟩ := hG.exists_read hrow hcol
  rw [read_reference_step hG hrow hcol, read_some_cell hcell, hcell]
  cases c with
  | ALIVE =>
    by_cases hn : alive_neighbors G row col = 2 ∨ alive_neighbors G row col = 3
    · simp [rule, hn]
    · simp [rule, hn]
  | DEAD =>
    by_cases hn : alive_neighbors G row col = 3
    · simp [rule, hn]
    · simp [rule, hn]

theorem first_next_step_is_life_witness :
    ∃ R, next_step none [[Cell.ALIVE, Cell.ALIVE], [Cell.ALIVE, Cell.DEAD]] = some R ∧
      Rect R 2 2 ∧
      ∀ row col, row < 2 → col < 2 →
        (read R row col = some Cell.ALIVE ∨ read R row col = some Cell.DEAD) ∧
        (read R row col = some Cell.ALIVE ↔
          (read [[Cell.ALIVE, Cell.ALIVE], [Cell.ALIVE, Cell.DEAD]] row col = some Cell.ALIVE ∧
              (alive_neighbors [[Cell.ALIVE, Cell.ALIVE], [Cell.ALIVE, Cell.DEAD]] row col = 2 ∨
                alive_neighbors [[Cell.ALIVE, Cell.ALIVE], [Cell.ALIVE, Cell.DEAD]] row col = 3)) ∨
            (read [[Cell.ALIVE, Cell.ALIVE], [Cell.ALIVE, Cell.DEAD]] row col = some Cell.DEAD ∧
              alive_neighbors [[Cell.ALIVE, Cell.ALIVE], [Cell.ALIVE, Cell.DEAD]] row col = 3)) :=
  first_next_step_is_life [[Cell.ALIVE, Cell.ALIVE], [Cell.ALIVE, Cell.DEAD]] 2 2
    (by decide) (by decide) (by decide)

/-- Claim C6. Starting from a rectangular grid `G0` with at least one row and one column
and a fresh static buffer, `n` consecutive executions of `field = next_step(field)` leave
the `n`-fold reference Game-of-Life step of `G0` in `field`, for every `n`: each execution
advances exactly one generation. -/
theorem advance_n_is_reference_iterate (G0 : field_t) (rows cols : Nat)
    (hG : Rect G0 rows cols) (hr : 1 ≤ rows) (hc : 1 ≤ cols) (n : Nat) :
    advance_n n none G0 = some (reference_step^[n] G0) := by
  have _ := hc
  exact advance_n_settled hG hr n none (settled_none G0 rows cols)

theorem advance_n_is_reference_iterate_witness :
    advance_n 3 none [[Cell.DEAD, Cell.ALIVE, Cell.DEAD], [Cell.DEAD, Cell.ALIVE, Cell.DEAD],
        [Cell.DEAD, Cell.ALIVE, Cell.DEAD]] =
      some (reference_step^[3] [[Cell.DEAD, Cell.ALIVE, Cell.DEAD],
        [Cell.DEAD, Cell.ALIVE, Cell.DEAD], [Cell.DEAD, Cell.ALIVE, Cell.DEAD]]) :=
  advance_n_is_reference_iterate _ 3 3 (by decide) (by decide) (by decide) 3

/-! ## The pattern loader -/

theorem length_fill_row (line : List Char) (k : Nat) (row : row_t) :
    (fill_row line k row).length = row.length := by
  unfold fill_row
  induction k with
  | zero => simp
  | succ m ih =>
    simp only [List.range_succ, List.foldl_append, List.foldl_cons, List.foldl_nil,
      List.length_set]
    exact ih

theorem getElem?_fill_row (text : List Char) (k : Nat) (row : row_t)
    (hk : k ≤ text.length) (hrow : row.length = text.length) (j : Nat) :
    (fill_row text k row)[j]? = if j < k then (text[j]?).map cell_of_char else row[j]? := by
  induction k with
  | zero => simp [fill_row]
  | succ m ih =>
    have hm := ih (by omega)
    have hstep : fill_row text (m + 1) row =
        (fill_row text m row).set m
          (if text.getD m '.' ≠ '.' then Cell.ALIVE else Cell.DEAD) := by
      simp [fill_row, List.range_succ, List.foldl_append]
    have hlen : m < (fill_row text m row).length := by
      rw [length_fill_row]; omega
    rw [hstep]
    by_cases hj : j = m
    · subst hj
      have htext : text[j]? = some (text.getD j '.') := by
        rw [List.getD_eq_getElem?_getD, List.getElem?_eq_getElem (by omega)]
        simp
      rw [List.getElem?_set_self hlen, htext]
      simp [cell_of_char]
    · have hne : m ≠ j := fun e => hj e.symm
      rw [List.getElem?_set_ne hne, hm]
      by_cases hlt : j < m
      · rw [if_pos hlt, if_pos (by omega)]
      · rw [if_neg hlt, if_neg (by omega)]

/-- The row built for a line is the line with every character translated. -/
theorem fill_row_eq_map (line : List Char) :
    fill_row line line.length (List.replicate line.length Cell.DEAD) =
      line.map cell_of_char := by
  apply List.ext_getElem?
  intro j
  rw [getElem?_fill_row line line.length _ (Nat.le_refl _) (by simp) j, List.getElem?_map]
  by_cases hj : j < line.length
  · rw [if_pos hj]
  · rw [if_neg hj, List.getElem?_eq_none (by simp; omega), List.getElem?_eq_none (by omega)]
    rfl

/-- The loop of the loader after its first line: it fails at the first line of another
length and otherwise appends one translated row per line. -/
theorem read_lines_rest (st : LoadState) (lines : List (List Char))
    (hf : st.first_line = false) :
    read_lines st lines =
      if ∀ line ∈ lines, line.length = st.cells_in_row then
        Except.ok { field := st.field ++ lines.map (fun line => line.map cell_of_char),
                    cells_in_row := st.cells_in_row, first_line := false }
      else Except.error LoadError.parsing := by
  induction lines generalizing st with
  | nil =>
    cases st
    simp at hf
    simp [read_lines, hf]
  | cons line rest ih =>
    by_cases hlen : line.length = st.cells_in_row
    · have h1 : read_line st line = Except.ok
          { field := st.field ++ [line.map cell_of_char],
            cells_in_row := st.cells_in_row, first_line := false } := by
        simp [read_line, hf, hlen.symm, fill_row_eq_map]
      rw [read_lines, h1]
      simp only
      rw [ih _ rfl]
      simp [hlen]
    · have h1 : read_line st line = Except.error LoadError.parsing := by
        have : ¬ st.cells_in_row = line.length := fun e => hlen e.symm
        simp [read_line, hf, this]
      rw [read_lines, h1]
      simp [hlen]

/-- The loader in closed form. -/
theorem read_field_from_file_eq (lines : List (List Char)) :
    read_field_from_file lines =
      match lines with
      | [] => Except.error LoadError.empty_file
      | first :: rest =>
        if ∀ line ∈ rest, line.length = first.length then
          Except.ok (lines.map (fun line => line.map cell_of_char))
        else Except.error LoadError.parsing := by
  cases lines with
  | nil => rfl
  | cons first rest =>
    have h1 : read_line { field := [], cells_in_row := 0, first_line := true } first =
        Except.ok { field := [first.map cell_of_char], cells_in_row := first.length,
                    first_line := false } := by
      simp [read_line, fill_row_eq_map]
    unfold read_field_from_file
    rw [read_lines, h1]
    simp only
    rw [read_lines_rest _ _ rfl]
    by_cases hall : ∀ line ∈ rest, line.length = first.length
    · rw [if_pos hall, if_pos hall]
      rfl
    · rw [if_neg hall, if_neg hall]

theorem malformed_cons (first : List Char) (rest : List (List Char)) :
    Malformed (first :: rest) ↔ ¬ ∀ line ∈ rest, line.length = first.length := by
  unfold Malformed
  simp

/-- Claim C2. On a pattern source given as its list of lines, `read_field_from_file`
fails if and only if the list is empty (error `empty_file`) or some line has a length
different from the first line's (error `parsing`); on every other list it succeeds. The
empty source fails, and the two lines `##`, `#` fail. -/
theorem read_field_from_file_fails_iff :
    (∀ lines : List (List Char),
      (∃ e, read_field_from_file lines = Except.error e) ↔ Malformed lines) ∧
    (∀ lines : List (List Char),
      (∃ f, read_field_from_file lines = Except.ok f) ↔ ¬ Malformed lines) ∧
    (∀ lines : List (List Char), ∀ e, read_field_from_file lines = Except.error e →
      (e = LoadError.empty_file ∧ lines = []) ∨ (e = LoadError.parsing ∧ lines ≠ [])) ∧
    read_field_from_file [] = Except.error LoadError.empty_file ∧
    read_field_from_file [['#', '#'], ['#']] = Except.error LoadError.parsing := by
  refine ⟨?_, ?_, ?_, rfl, ?_⟩
  · intro lines
    rw [read_field_from_file_eq]
    cases lines with
    | nil => simp [Malformed]
    | cons first rest =>
      rw [malformed_cons]
      by_cases hall : ∀ line ∈ rest, line.length = first.length
      · simp only [if_pos hall]
        simp
        exact hall
      · simp only [if_neg hall]
        simp [hall]
  · intro lines
    rw [read_field_from_file_eq]
    cases lines with
    | nil => simp [Malformed]
    | cons first rest =>
      rw [malformed_cons]
      by_cases hall : ∀ line ∈ rest, line.length = first.length
      · simp only [if_pos hall]
        simp
        exact hall
      · simp only [if_neg hall]
        simp [hall]
  · intro lines e
    rw [read_field_from_file_eq]
    cases lines with
    | nil =>
      intro h
      injection h with h
      exact Or.inl ⟨h.symm, rfl⟩
    | cons first rest =>
      by_cases hall : ∀ line ∈ rest, line.length = first.length
      · simp only [if_pos hall]
        intro h
        exact Except.noConfusion h
      · simp only [if_neg hall]
        intro h
        injection h with h
        exact Or.inr ⟨h.symm, by simp⟩
  · rw [read_field_from_file_eq]
    simp

/-- Claim C3. When `read_field_from_file` succeeds on a list of lines, the grid has one
row per line, every row has the length of the first line, and the cell at `(row, col)` is
`ALIVE` if and only if character `col` of line `row` is not `.`, and `DEAD` otherwise. -/
theorem read_field_from_file_grid (lines : List (List Char)) (f : field_t)
    (h : read_field_from_file lines = Except.ok f) :
    f.length = lines.length ∧ Rect f lines.length (lines.headD []).length ∧
      ∀ row col, row < lines.length → col < (lines.headD []).length →
        ∃ ch, char_at lines row col = some ch ∧
          (read f row col = some Cell.ALIVE ↔ ch ≠ '.') ∧
          (read f row col = some Cell.DEAD ↔ ch = '.') := by
  rw [read_field_from_file_eq] at h
  cases lines with
  | nil => simp at h
  | cons first rest =>
    by_cases hall : ∀ line ∈ rest, line.length = first.length
    · simp only [if_pos hall] at h
      injection h with h
      subst h
      have hlen : ∀ line ∈ first :: rest, line.length = first.length := by
        intro line hl
        rcases List.mem_cons.mp hl with e | e
        · rw [e]
        · exact hall line e
      refine ⟨by simp, ⟨by simp, ?_⟩, ?_⟩
      · intro row hrow
        simp only [List.mem_map] at hrow
        obtain ⟨line, hl, rfl⟩ := hrow
        simpa using hlen line hl
      · intro row col hrow hcol
        have hget : (first :: rest)[row]? = some ((first :: rest)[row]) :=
          List.getElem?_eq_getElem hrow
        have hmem : (first :: rest)[row] ∈ first :: rest := List.getElem_mem hrow
        have hcl : col < ((first :: rest)[row]).length := by
          rw [hlen _ hmem]; simpa using hcol
        refine ⟨((first :: rest)[row])[col], ?_, ?_, ?_⟩
        · simp only [char_at, hget]
          exact List.getElem?_eq_getElem hcl
        · simp only [read, List.getElem?_map, hget, Option.map_some']
          rw [List.getElem?_eq_getElem hcl]
          simp [cell_of_char]
        · simp only [read, List.getElem?_map, hget, Option.map_some']
          rw [List.getElem?_eq_getElem hcl]
          simp [cell_of_char]
    · simp [if_neg hall] at h

theorem read_field_from_file_grid_witness :
    read_field_from_file [['.', '#', '.'], ['.', '.', '#'], ['#', '#', '#']] =
        Except.ok [[Cell.DEAD, Cell.ALIVE, Cell.DEAD], [Cell.DEAD, Cell.DEAD, Cell.ALIVE],
          [Cell.ALIVE, Cell.ALIVE, Cell.ALIVE]] ∧
      ([[Cell.DEAD, Cell.ALIVE, Cell.DEAD], [Cell.DEAD, Cell.DEAD, Cell.ALIVE],
          [Cell.ALIVE, Cell.ALIVE, Cell.ALIVE]] : field_t).length = 3 ∧
      Rect [[Cell.DEAD, Cell.ALIVE, Cell.DEAD], [Cell.DEAD, Cell.DEAD, Cell.ALIVE],
          [Cell.ALIVE, Cell.ALIVE, Cell.ALIVE]] 3 3 ∧
      ∀ row col, row < 3 → col < 3 →
        ∃ ch, char_at [['.', '#', '.'], ['.', '.', '#'], ['#', '#', '#']] row col = some ch ∧
          (read [[Cell.DEAD, Cell.ALIVE, Cell.DEAD], [Cell.DEAD, Cell.DEAD, Cell.ALIVE],
              [Cell.ALIVE, Cell.ALIVE, Cell.ALIVE]] row col = some Cell.ALIVE ↔ ch ≠ '.') ∧
          (read [[Cell.DEAD, Cell.ALIVE, Cell.DEAD], [Cell.DEAD, Cell.DEAD, Cell.ALIVE],
              [Cell.ALIVE, Cell.ALIVE, Cell.ALIVE]] row col = some Cell.DEAD ↔ ch = '.') :=
  ⟨by rw [read_field_from_file_eq]; simp [cell_of_char],
    read_field_from_file_grid [['.', '#', '.'], ['.', '.', '#'], ['#', '#', '#']]
      [[Cell.DEAD, Cell.ALIVE, Cell.DEAD], [Cell.DEAD, Cell.DEAD, Cell.ALIVE],
        [Cell.ALIVE, Cell.ALIVE, Cell.ALIVE]]
      (by rw [read_field_from_file_eq]; simp [cell_of_char])⟩

/-! ## The emptiness test -/

theorem is_field_empty_eq_false_iff (field : field_t) :
    is_field_empty field = false ↔ ∃ y x, read field y x = some Cell.ALIVE := by
  unfold is_field_empty
  simp only [Bool.not_eq_false', List.any_eq_true, decide_eq_true_eq]
  constructor
  · rintro ⟨row, hrow, c, hc, rfl⟩
    obtain ⟨y, hy⟩ := List.mem_iff_getElem?.mp hrow
    obtain ⟨x, hx⟩ := List.mem_iff_getElem?.mp hc
    exact ⟨y, x, by simp [read, hy, hx]⟩
  · rintro ⟨y, x, h⟩
    unfold read at h
    cases hrow : field[y]? with
    | none => simp [hrow] at h
    | some row =>
      simp only [hrow] at h
      exact ⟨row, List.getElem?_mem hrow, Cell.ALIVE, List.getElem?_mem h, rfl⟩

theorem is_field_empty_eq_true_iff (field : field_t) :
    is_field_empty field = true ↔ ∀ y x, read field y x ≠ some Cell.ALIVE := by
  constructor
  · intro h y x hyx
    have : is_field_empty field = false := (is_field_empty_eq_false_iff field).mpr ⟨y, x, hyx⟩
    rw [h] at this
    exact Bool.noConfusion this
  · intro h
    cases hb : is_field_empty field with
    | true => rfl
    | false =>
      obtain ⟨y, x, hyx⟩ := (is_field_empty_eq_false_iff field).mp hb
      exact absurd hyx (h y x)

/-- Claim C8. For every grid, of any size, `is_field_empty` returns true if and only if
no cell of the grid is `ALIVE`, and false if and only if some cell is `ALIVE`. -/
theorem is_field_empty_iff (field : field_t) :
    (is_field_empty field = true ↔ ∀ y x, read field y x ≠ some Cell.ALIVE) ∧
      (is_field_empty field = false ↔ ∃ y x, read field y x = some Cell.ALIVE) :=
  ⟨is_field_empty_eq_true_iff field, is_field_empty_eq_false_iff field⟩

/-! ## The blinker -/

theorem alive_at_iff {G : field_t} {rows cols : Nat} (hG : Rect G rows cols) (hr : 0 < rows)
    (yy xx : Int) :
    alive_at G yy xx = true ↔
      0 ≤ yy ∧ yy < rows ∧ 0 ≤ xx ∧ xx < cols ∧ cell G yy.toNat xx.toNat = Cell.ALIVE := by
  unfold alive_at
  rw [hG.cols_of_eq hr, hG.1]
  simp only [Bool.and_eq_true, decide_eq_true_eq]
  constructor
  · rintro ⟨⟨⟨⟨h1, h2⟩, h3⟩, h4⟩, h5⟩
    exact ⟨h1, h2, h3, h4, read_some_cell h5⟩
  · rintro ⟨h1, h2, h3, h4, h5⟩
    refine ⟨⟨⟨⟨h1, h2⟩, h3⟩, h4⟩, ?_⟩
    obtain ⟨c, hc⟩ := hG.exists_read (y := yy.toNat) (x := xx.toNat) (by omega) (by omega)
    rw [hc, ← read_some_cell hc, h5]

theorem alive_at_horizontal {G : field_t} {rows cols r c : Nat}
    (hG : IsHorizontal G rows cols r c) (hr : r < rows) (hc1 : 1 ≤ c) (hc2 : c + 1 < cols)
    (yy xx : Int) :
    alive_at G yy xx = true ↔ yy = r ∧ (xx + 1 = c ∨ xx = c ∨ xx = c + 1) := by
  rw [alive_at_iff hG.1 (by omega)]
  constructor
  · rintro ⟨h1, h2, h3, h4, h5⟩
    rw [hG.2 _ _ (by omega) (by omega)] at h5
    by_cases hp : yy.toNat = r ∧ (xx.toNat + 1 = c ∨ xx.toNat = c ∨ xx.toNat = c + 1)
    · omega
    · rw [if_neg hp] at h5
      exact Cell.noConfusion h5
  · intro h
    refine ⟨by omega, by omega, by omega, by omega, ?_⟩
    rw [hG.2 _ _ (by omega) (by omega), if_pos (by omega)]

theorem alive_at_vertical {G : field_t} {rows cols r c : Nat}
    (hG : IsVertical G rows cols r c) (hc : c < cols) (hr1 : 1 ≤ r) (hr2 : r + 1 < rows)
    (yy xx : Int) :
    alive_at G yy xx = true ↔ xx = c ∧ (yy + 1 = r ∨ yy = r ∨ yy = r + 1) := by
  rw [alive_at_iff hG.1 (by omega)]
  constructor
  · rintro ⟨h1, h2, h3, h4, h5⟩
    rw [hG.2 _ _ (by omega) (by omega)] at h5
    by_cases hp : xx.toNat = c ∧ (yy.toNat + 1 = r ∨ yy.toNat = r ∨ yy.toNat = r + 1)
    · omega
    · rw [if_neg hp] at h5
      exact Cell.noConfusion h5
  · intro h
    refine ⟨by omega, by omega, by omega, by omega, ?_⟩
    rw [hG.2 _ _ (by omega) (by omega), if_pos (by omega)]

theorem rule_ALIVE_iff (n : Nat) : rule Cell.ALIVE n = if n = 2 ∨ n = 3 then Cell.ALIVE
    else Cell.DEAD := rfl

theorem rule_DEAD_iff (n : Nat) : rule Cell.DEAD n = if n = 3 then Cell.ALIVE
    else Cell.DEAD := rfl

theorem Rect.read_eq_cell {G : field_t} {rows cols : Nat} (h : Rect G rows cols) {y x : Nat}
    (hy : y < rows) (hx : x < cols) : read G y x = some (cell G y x) := by
  obtain ⟨c, hc⟩ := h.exists_read hy hx
  rw [hc, read_some_cell hc]

/-- The reference step turns the horizontal line into the vertical line. -/
theorem reference_step_horizontal {G : field_t} {rows cols r c : Nat}
    (hG : IsHorizontal G rows cols r c) (hr1 : 1 ≤ r) (hr2 : r + 1 < rows) (hc1 : 1 ≤ c)
    (hc2 : c + 1 < cols) : IsVertical (reference_step G) rows cols r c := by
  refine ⟨rect_reference_step hG.1 (by omega), ?_⟩
  intro y x hy hx
  have hread := read_reference_step hG.1 hy hx
  rw [read_some_cell hread, hG.2 y x hy hx]
  simp only [alive_neighbors, offsets, List.map_cons, List.map_nil, List.sum_cons,
    List.sum_nil, alive_at_horizontal hG (by omega : r < rows) hc1 hc2]
  have hyr : y + 1 < r ∨ y + 1 = r ∨ y = r ∨ y = r + 1 ∨ r + 1 < y := by omega
  have hxc : x + 2 < c ∨ x + 2 = c ∨ x + 1 = c ∨ x = c ∨ x = c + 1 ∨ x = c + 2 ∨
      c + 2 < x := by omega
  rcases hyr with h1 | h1 | h1 | h1 | h1 <;>
    rcases hxc with h2 | h2 | h2 | h2 | h2 | h2 | h2 <;>
    simp (disch := omega) only [if_pos, if_neg, rule_ALIVE_iff, rule_DEAD_iff]

/-- The reference step turns the vertical line into the horizontal line. -/
theorem reference_step_vertical {G : field_t} {rows cols r c : Nat}
    (hG : IsVertical G rows cols r c) (hr1 : 1 ≤ r) (hr2 : r + 1 < rows)
    (hc2 : c + 1 < cols) : IsHorizontal (reference_step G) rows cols r c := by
  refine ⟨rect_reference_step hG.1 (by omega), ?_⟩
  intro y x hy hx
  have hread := read_reference_step hG.1 hy hx
  rw [read_some_cell hread, hG.2 y x hy hx]
  simp only [alive_neighbors, offsets, List.map_cons, List.map_nil, List.sum_cons,
    List.sum_nil, alive_at_vertical hG (by omega : c < cols) hr1 hr2]
  have hxc : x + 1 < c ∨ x + 1 = c ∨ x = c ∨ x = c + 1 ∨ c + 1 < x := by omega
  have hyr : y + 2 < r ∨ y + 2 = r ∨ y + 1 = r ∨ y = r ∨ y = r + 1 ∨ y = r + 2 ∨
      r + 2 < y := by omega
  rcases hxc with h1 | h1 | h1 | h1 | h1 <;>
    rcases hyr with h2 | h2 | h2 | h2 | h2 | h2 | h2 <;>
    simp (disch := omega) only [if_pos, if_neg, rule_ALIVE_iff, rule_DEAD_iff]

/-- The blinker under a settled static buffer. On a grid with at least 5 rows and 5 columns
that is all `DEAD` except a horizontal line of three `ALIVE` cells whose centre `(r, c)` is
not on the border, a call of `next_step` whose static buffer is not yet created, or holds
no `ALIVE` cell where the grid is `DEAD`, returns the grid that is all `DEAD` except the
vertical line through `(r, c)`, and `next_step` applied to that result returns the
original grid. -/
theorem blinker_period_two (G : field_t) (rows cols r c : Nat) (hrows : 5 ≤ rows)
    (hcols : 5 ≤ cols) (hr1 : 1 ≤ r) (hr2 : r + 1 < rows) (hc1 : 1 ≤ c) (hc2 : c + 1 < cols)
    (hG : IsHorizontal G rows cols r c) (s : Option field_t) (hs : Settled s G rows cols) :
    ∃ V, next_step s G = some V ∧ IsVertical V rows cols r c ∧
      next_step (some V) V = some G := by
  have _ := hcols
  have hV := reference_step_horizontal hG hr1 hr2 hc1 hc2
  have hH := reference_step_vertical hV hr1 hr2 hc2
  refine ⟨reference_step G, next_step_settled hG.1 (by omega) s hs, hV, ?_⟩
  rw [next_step_settled hV.1 (by omega) _ (settled_self hV.1)]
  congr 1
  apply Rect.ext hH.1 hG.1
  intro y x hy hx
  rw [hH.1.read_eq_cell hy hx, hG.1.read_eq_cell hy hx, hH.2 y x hy hx, hG.2 y x hy hx]

theorem blinker_period_two_witness :
    ∃ V, next_step none
        [[Cell.DEAD, Cell.DEAD, Cell.DEAD, Cell.DEAD, Cell.DEAD],
         [Cell.DEAD, Cell.DEAD, Cell.DEAD, Cell.DEAD, Cell.DEAD],
         [Cell.DEAD, Cell.ALIVE, Cell.ALIVE, Cell.ALIVE, Cell.DEAD],
         [Cell.DEAD, Cell.DEAD, Cell.DEAD, Cell.DEAD, Cell.DEAD],
         [Cell.DEAD, Cell.DEAD, Cell.DEAD, Cell.DEAD, Cell.DEAD]] = some V ∧
      IsVertical V 5 5 2 2 ∧
      next_step (some V) V = some
        [[Cell.DEAD, Cell.DEAD, Cell.DEAD, Cell.DEAD, Cell.DEAD],
         [Cell.DEAD, Cell.DEAD, Cell.DEAD, Cell.DEAD, Cell.DEAD],
         [Cell.DEAD, Cell.ALIVE, Cell.ALIVE, Cell.ALIVE, Cell.DEAD],
         [Cell.DEAD, Cell.DEAD, Cell.DEAD, Cell.DEAD, Cell.DEAD],
         [Cell.DEAD, Cell.DEAD, Cell.DEAD, Cell.DEAD, Cell.DEAD]] :=
  blinker_period_two _ 5 5 2 2 (by decide) (by decide) (by decide) (by decide) (by decide)
    (by decide)
    ⟨by decide, fun y x hy hx => by interval_cases y <;> interval_cases x <;> rfl⟩
    none (settled_none _ 5 5)

/-- Claim C7, evaluated on the code. A 5 x 5 pattern file with a block of four live cells
in the top left corner is loaded; Enter starts the simulation (one call of `next_step`,
which leaves the block in the static buffer), Enter pauses it, four clicks kill the block
and three clicks draw the horizontal line `(2, 1)`, `(2, 2)`, `(2, 3)`. The grid held is
now all `DEAD` except that line, whose centre is not on the border, yet `next_step` on it
returns the vertical line through `(2, 2)` together with the block of the earlier
generation, so the result is not the grid that is all `DEAD` except the vertical line. -/
theorem blinker_with_stale_buffer_keeps_block :
    read_field_from_file
        [['#', '#', '.', '.', '.'], ['#', '#', '.', '.', '.'], ['.', '.', '.', '.', '.'],
          ['.', '.', '.', '.', '.'], ['.', '.', '.', '.', '.']] =
        Except.ok
          [[Cell.ALIVE, Cell.ALIVE, Cell.DEAD, Cell.DEAD, Cell.DEAD],
           [Cell.ALIVE, Cell.ALIVE, Cell.DEAD, Cell.DEAD, Cell.DEAD],
           [Cell.DEAD, Cell.DEAD, Cell.DEAD, Cell.DEAD, Cell.DEAD],
           [Cell.DEAD, Cell.DEAD, Cell.DEAD, Cell.DEAD, Cell.DEAD],
           [Cell.DEAD, Cell.DEAD, Cell.DEAD, Cell.DEAD, Cell.DEAD]] ∧
      run (start
          [[Cell.ALIVE, Cell.ALIVE, Cell.DEAD, Cell.DEAD, Cell.DEAD],
           [Cell.ALIVE, Cell.ALIVE, Cell.DEAD, Cell.DEAD, Cell.DEAD],
           [Cell.DEAD, Cell.DEAD, Cell.DEAD, Cell.DEAD, Cell.DEAD],
           [Cell.DEAD, Cell.DEAD, Cell.DEAD, Cell.DEAD, Cell.DEAD],
           [Cell.DEAD, Cell.DEAD, Cell.DEAD, Cell.DEAD, Cell.DEAD]])
          [⟨none, true⟩, ⟨none, true⟩, ⟨some (0, 0), false⟩, ⟨some (30, 0), false⟩,
            ⟨some (0, 30), false⟩, ⟨some (30, 30), false⟩, ⟨some (30, 55), false⟩,
            ⟨some (55, 55), false⟩, ⟨some (80, 55), false⟩] =
        some ⟨[[Cell.DEAD, Cell.DEAD, Cell.DEAD, Cell.DEAD, Cell.DEAD],
               [Cell.DEAD, Cell.DEAD, Cell.DEAD, Cell.DEAD, Cell.DEAD],
               [Cell.DEAD, Cell.ALIVE, Cell.ALIVE, Cell.ALIVE, Cell.DEAD],
               [Cell.DEAD, Cell.DEAD, Cell.DEAD, Cell.DEAD, Cell.DEAD],
               [Cell.DEAD, Cell.DEAD, Cell.DEAD, Cell.DEAD, Cell.DEAD]], false,
          some [[Cell.ALIVE, Cell.ALIVE, Cell.DEAD, Cell.DEAD, Cell.DEAD],
                [Cell.ALIVE, Cell.ALIVE, Cell.DEAD, Cell.DEAD, Cell.DEAD],
                [Cell.DEAD, Cell.DEAD, Cell.DEAD, Cell.DEAD, Cell.DEAD],
                [Cell.DEAD, Cell.DEAD, Cell.DEAD, Cell.DEAD, Cell.DEAD],
                [Cell.DEAD, Cell.DEAD, Cell.DEAD, Cell.DEAD, Cell.DEAD]], 1⟩ ∧
      IsHorizontal
        [[Cell.DEAD, Cell.DEAD, Cell.DEAD, Cell.DEAD, Cell.DEAD],
         [Cell.DEAD, Cell.DEAD, Cell.DEAD, Cell.DEAD, Cell.DEAD],
         [Cell.DEAD, Cell.ALIVE, Cell.ALIVE, Cell.ALIVE, Cell.DEAD],
         [Cell.DEAD, Cell.DEAD, Cell.DEAD, Cell.DEAD, Cell.DEAD],
         [Cell.DEAD, Cell.DEAD, Cell.DEAD, Cell.DEAD, Cell.DEAD]] 5 5 2 2 ∧
      next_step
          (some [[Cell.ALIVE, Cell.ALIVE, Cell.DEAD, Cell.DEAD, Cell.DEAD],
                 [Cell.ALIVE, Cell.ALIVE, Cell.DEAD, Cell.DEAD, Cell.DEAD],
                 [Cell.DEAD, Cell.DEAD, Cell.DEAD, Cell.DEAD, Cell.DEAD],
                 [Cell.DEAD, Cell.DEAD, Cell.DEAD, Cell.DEAD, Cell.DEAD],
                 [Cell.DEAD, Cell.DEAD, Cell.DEAD, Cell.DEAD, Cell.DEAD]])
          [[Cell.DEAD, Cell.DEAD, Cell.DEAD, Cell.DEAD, Cell.DEAD],
           [Cell.DEAD, Cell.DEAD, Cell.DEAD, Cell.DEAD, Cell.DEAD],
           [Cell.DEAD, Cell.ALIVE, Cell.ALIVE, Cell.ALIVE, Cell.DEAD],
           [Cell.DEAD, Cell.DEAD, Cell.DEAD, Cell.DEAD, Cell.DEAD],
           [Cell.DEAD, Cell.DEAD, Cell.DEAD, Cell.DEAD, Cell.DEAD]] =
        some [[Cell.ALIVE, Cell.ALIVE, Cell.DEAD, Cell.DEAD, Cell.DEAD],
              [Cell.ALIVE, Cell.ALIVE, Cell.ALIVE, Cell.DEAD, Cell.DEAD],
              [Cell.DEAD, Cell.DEAD, Cell.ALIVE, Cell.DEAD, Cell.DEAD],
              [Cell.DEAD, Cell.DEAD, Cell.ALIVE, Cell.DEAD, Cell.DEAD],
              [Cell.DEAD, Cell.DEAD, Cell.DEAD, Cell.DEAD, Cell.DEAD]] ∧
      ¬ IsVertical
        [[Cell.ALIVE, Cell.ALIVE, Cell.DEAD, Cell.DEAD, Cell.DEAD],
         [Cell.ALIVE, Cell.ALIVE, Cell.ALIVE, Cell.DEAD, Cell.DEAD],
         [Cell.DEAD, Cell.DEAD, Cell.ALIVE, Cell.DEAD, Cell.DEAD],
         [Cell.DEAD, Cell.DEAD, Cell.ALIVE, Cell.DEAD, Cell.DEAD],
         [Cell.DEAD, Cell.DEAD, Cell.DEAD, Cell.DEAD, Cell.DEAD]] 5 5 2 2 := by
  refine ⟨?_, by decide, ?_, by decide, ?_⟩
  · rw [read_field_from_file_eq]
    simp [cell_of_char]
  · exact ⟨by decide, fun y x hy hx => by interval_cases y <;> interval_cases x <;> rfl⟩
  · intro h
    have h00 := h.2 0 0 (by decide) (by decide)
    exact absurd h00 (by decide)

/-! ## The static buffer across calls -/

/-- Claim C4, evaluated on the code. A 2 x 2 pattern file of four live cells is loaded;
Enter starts the simulation (one call of `next_step`, which leaves the block in the static
buffer), Enter pauses it, four clicks kill the four cells. The grid is now all `DEAD` and
the cell `(0, 0)` has no live neighbour, yet `next_step` on this grid returns the block:
the `DEAD` case of the `switch` assigns nothing when the count is not 3, so the cell keeps
the `ALIVE` value of the earlier generation. -/
theorem next_step_stale_buffer_revives_dead_cells :
    read_field_from_file [['#', '#'], ['#', '#']] =
        Except.ok [[Cell.ALIVE, Cell.ALIVE], [Cell.ALIVE, Cell.ALIVE]] ∧
      run (start [[Cell.ALIVE, Cell.ALIVE], [Cell.ALIVE, Cell.ALIVE]])
          [⟨none, true⟩, ⟨none, true⟩, ⟨some (0, 0), false⟩, ⟨some (30, 0), false⟩,
            ⟨some (0, 30), false⟩, ⟨some (30, 30), false⟩] =
        some ⟨[[Cell.DEAD, Cell.DEAD], [Cell.DEAD, Cell.DEAD]], false,
          some [[Cell.ALIVE, Cell.ALIVE], [Cell.ALIVE, Cell.ALIVE]], 1⟩ ∧
      is_field_empty [[Cell.DEAD, Cell.DEAD], [Cell.DEAD, Cell.DEAD]] = true ∧
      read [[Cell.DEAD, Cell.DEAD], [Cell.DEAD, Cell.DEAD]] 0 0 = some Cell.DEAD ∧
      alive_neighbors [[Cell.DEAD, Cell.DEAD], [Cell.DEAD, Cell.DEAD]] 0 0 = 0 ∧
      count_neighbours [[Cell.DEAD, Cell.DEAD], [Cell.DEAD, Cell.DEAD]] 0 0 = some 0 ∧
      next_step (some [[Cell.ALIVE, Cell.ALIVE], [Cell.ALIVE, Cell.ALIVE]])
          [[Cell.DEAD, Cell.DEAD], [Cell.DEAD, Cell.DEAD]] =
        some [[Cell.ALIVE, Cell.ALIVE], [Cell.ALIVE, Cell.ALIVE]] ∧
      frame ⟨[[Cell.DEAD, Cell.DEAD], [Cell.DEAD, Cell.DEAD]], false,
            some [[Cell.ALIVE, Cell.ALIVE], [Cell.ALIVE, Cell.ALIVE]], 1⟩ ⟨none, true⟩ =
        some ⟨[[Cell.ALIVE, Cell.ALIVE], [Cell.ALIVE, Cell.ALIVE]], true,
          some [[Cell.ALIVE, Cell.ALIVE], [Cell.ALIVE, Cell.ALIVE]], 2⟩ := by
  refine ⟨?_, by decide, by decide, by decide, by decide, by decide, by decide, by decide⟩
  rw [read_field_from_file_eq]
  simp [cell_of_char]

/-- Claim C5, evaluated on the code. The call of `next_step` on the all-`DEAD` 2 x 2 grid
returns the all-`DEAD` grid when it is the first call of the process, and the block of
four live cells when an earlier call on that block came before: the result depends on what
the earlier call left in the static buffer. -/
theorem next_step_depends_on_earlier_calls :
    next_step none [[Cell.DEAD, Cell.DEAD], [Cell.DEAD, Cell.DEAD]] =
        some [[Cell.DEAD, Cell.DEAD], [Cell.DEAD, Cell.DEAD]] ∧
      (∃ left, next_step none [[Cell.ALIVE, Cell.ALIVE], [Cell.ALIVE, Cell.ALIVE]] = some left ∧
        next_step (some left) [[Cell.DEAD, Cell.DEAD], [Cell.DEAD, Cell.DEAD]] =
          some [[Cell.ALIVE, Cell.ALIVE], [Cell.ALIVE, Cell.ALIVE]]) := by
  refine ⟨by decide, [[Cell.ALIVE, Cell.ALIVE], [Cell.ALIVE, Cell.ALIVE]], by decide, by decide⟩

/-! ## The frame loop on an all-dead grid -/

theorem cell_of_empty {G : field_t} (h : is_field_empty G = true) (y x : Nat) :
    cell G y x = Cell.DEAD := by
  have hne := (is_field_empty_eq_true_iff G).mp h y x
  unfold cell
  cases hr : read G y x with
  | none => rfl
  | some c =>
    cases c with
    | DEAD => rfl
    | ALIVE => exact absurd hr hne

theorem alive_neighbors_of_empty {G : field_t} (h : is_field_empty G = true) (y x : Nat) :
    alive_neighbors G y x = 0 := by
  have hne := (is_field_empty_eq_true_iff G).mp h
  have hat : ∀ yy xx, alive_at G yy xx = false := by
    intro yy xx
    unfold alive_at
    simp [hne]
  simp [alive_neighbors, hat]

/-- The reference step of an all-dead grid is the grid itself. -/
theorem reference_step_of_empty {G : field_t} {rows cols : Nat} (hG : Rect G rows cols)
    (hr : 0 < rows) (h : is_field_empty G = true) : reference_step G = G := by
  apply Rect.ext (rect_reference_step hG hr) hG
  intro y x hy hx
  rw [read_reference_step hG hy hx, hG.read_eq_cell hy hx, cell_of_empty h,
    alive_neighbors_of_empty h]
  rfl

theorem edit_phase_of_empty (field : field_t) (play : Bool) (click : Option (Int × Int))
    (h : is_field_empty field = true) :
    edit_phase field play click =
      match click with
      | none => some (field, false)
      | some (px, py) =>
        match click_cell field px py with
        | none => none
        | some f => some (f, false) := by
  simp [edit_phase, h]

/-- Claim C9, counterexample. On the all-`DEAD` 2 x 2 grid with `play` false, an iteration
of the frame loop with Enter pressed and no click ends with `play` true and has executed
`field = next_step(field)` once. -/
theorem toggle_play_on_empty_counterexample :
    is_field_empty [[Cell.DEAD, Cell.DEAD], [Cell.DEAD, Cell.DEAD]] = true ∧
      frame ⟨[[Cell.DEAD, Cell.DEAD], [Cell.DEAD, Cell.DEAD]], false, none, 0⟩ ⟨none, true⟩ =
        some ⟨[[Cell.DEAD, Cell.DEAD], [Cell.DEAD, Cell.DEAD]], true,
          some [[Cell.DEAD, Cell.DEAD], [Cell.DEAD, Cell.DEAD]], 1⟩ := by
  refine ⟨by decide, by decide⟩

/-- Claim C9, amended. On an all-`DEAD` rectangular grid, whatever `play` is, an iteration
of the frame loop with Enter pressed and no click ends with `play` true after exactly one
execution of `field = next_step(field)` on the unchanged grid. When the static buffer is
settled (fresh, or without an `ALIVE` cell), the grid returned is the same all-`DEAD` grid,
and the following iteration, if Enter is not pressed and nothing is clicked, ends with
`play` false without a further step: the controller is idle again one frame later. -/
theorem toggle_play_on_empty (s : Sim) (rows cols : Nat) (hG : Rect s.field rows cols)
    (hr : 0 < rows) (hempty : is_field_empty s.field = true)
    (hb : BufferFits s.next_field rows cols) :
    ∃ R, next_step s.next_field s.field = some R ∧
      frame s ⟨none, true⟩ =
        some { field := R, play := true, next_field := some R, steps := s.steps + 1 } ∧
      (Settled s.next_field s.field rows cols →
        R = s.field ∧
        frame { field := R, play := true, next_field := some R, steps := s.steps + 1 }
            ⟨none, false⟩ =
          some { field := R, play := false, next_field := some R, steps := s.steps + 1 }) := by
  obtain ⟨R, h1, _, _⟩ := next_step_eq hG hr s.next_field hb
  refine ⟨R, h1, ?_, ?_⟩
  · simp [frame, edit_phase_of_empty _ _ _ hempty, h1]
  · intro hs
    have h2 := next_step_settled hG hr s.next_field hs
    rw [reference_step_of_empty hG hr hempty, h1] at h2
    injection h2 with h2
    subst h2
    refine ⟨rfl, ?_⟩
    simp [frame, edit_phase_of_empty _ _ _ hempty]

theorem toggle_play_on_empty_witness :
    ∃ R, next_step none [[Cell.DEAD, Cell.DEAD], [Cell.DEAD, Cell.DEAD]] = some R ∧
      frame ⟨[[Cell.DEAD, Cell.DEAD], [Cell.DEAD, Cell.DEAD]], false, none, 0⟩ ⟨none, true⟩ =
        some { field := R, play := true, next_field := some R, steps := 0 + 1 } ∧
      (Settled none [[Cell.DEAD, Cell.DEAD], [Cell.DEAD, Cell.DEAD]] 2 2 →
        R = [[Cell.DEAD, Cell.DEAD], [Cell.DEAD, Cell.DEAD]] ∧
        frame { field := R, play := true, next_field := some R, steps := 0 + 1 }
            ⟨none, false⟩ =
          some { field := R, play := false, next_field := some R, steps := 0 + 1 }) :=
  toggle_play_on_empty ⟨[[Cell.DEAD, Cell.DEAD], [Cell.DEAD, Cell.DEAD]], false, none, 0⟩ 2 2
    (by decide) (by decide) (by decide) trivial

/-- Claim C10. In an iteration of the frame loop that starts with an all-`DEAD` grid, the
branch of main.cpp:157 sets `play` to false before any input is read; when Enter is not
pressed the iteration ends with `play` false, the static buffer and the number of steps
untouched, and the grid unchanged without a click, or changed by the click handler alone
with one. -/
theorem auto_pause_on_empty (s : Sim) (inp : Input) (hempty : is_field_empty s.field = true)
    (henter : inp.enter = false) :
    edit_phase s.field s.play none = some (s.field, false) ∧
      frame s inp =
        (match inp.click with
         | none => some { field := s.field, play := false, next_field := s.next_field,
                          steps := s.steps }
         | some (px, py) =>
           match click_cell s.field px py with
           | none => none
           | some f => some { field := f, play := false, next_field := s.next_field,
                              steps := s.steps }) ∧
      ∀ s1, frame s inp = some s1 →
        s1.play = false ∧ s1.steps = s.steps ∧ s1.next_field = s.next_field ∧
          (inp.click = none → s1.field = s.field) := by
  have hframe : frame s inp =
      (match inp.click with
       | none => some { field := s.field, play := false, next_field := s.next_field,
                        steps := s.steps }
       | some (px, py) =>
         match click_cell s.field px py with
         | none => none
         | some f => some { field := f, play := false, next_field := s.next_field,
                            steps := s.steps }) := by
    unfold frame
    rw [edit_phase_of_empty _ _ _ hempty]
    cases hclick : inp.click with
    | none => simp [henter]
    | some p =>
      obtain ⟨px, py⟩ := p
      cases hcc : click_cell s.field px py with
      | none => simp [hcc]
      | some f => simp [hcc, henter]
  refine ⟨by rw [edit_phase_of_empty _ _ _ hempty], hframe, ?_⟩
  intro s1 hs1
  rw [hframe] at hs1
  cases hclick : inp.click with
  | none =>
    rw [hclick] at hs1
    injection hs1 with hs1
    subst hs1
    exact ⟨rfl, rfl, rfl, fun _ => rfl⟩
  | some p =>
    obtain ⟨px, py⟩ := p
    rw [hclick] at hs1
    cases hcc : click_cell s.field px py with
    | none => simp [hcc] at hs1
    | some f =>
      simp only [hcc] at hs1
      injection hs1 with hs1
      subst hs1
      exact ⟨rfl, rfl, rfl, fun h => Option.noConfusion h⟩

theorem auto_pause_on_empty_witness :
    is_field_empty [[Cell.DEAD, Cell.DEAD], [Cell.DEAD, Cell.DEAD]] = true ∧
      frame ⟨[[Cell.DEAD, Cell.DEAD], [Cell.DEAD, Cell.DEAD]], true, none, 0⟩
          ⟨some (30, 0), false⟩ =
        some ⟨[[Cell.DEAD, Cell.ALIVE], [Cell.DEAD, Cell.DEAD]], false, none, 0⟩ :=
  ⟨by decide,
    ((auto_pause_on_empty ⟨[[Cell.DEAD, Cell.DEAD], [Cell.DEAD, Cell.DEAD]], true, none, 0⟩
      ⟨some (30, 0), false⟩ (by decide) rfl).2.1).trans (by decide)⟩

/-! ## The click handler -/

/-- A click whose computed indices are `(y, x)` inside the grid: the handler returns, keeps
the dimensions, and flips the cell `(y, x)` only. -/
theorem click_cell_eq {field : field_t} {rows cols : Nat} (hG : Rect field rows cols)
    (px py : Int) {y x : Nat} (hy : y < rows) (hx : x < cols)
    (hpx : Int.tdiv px CELL_SIZE = x) (hpy : Int.tdiv py CELL_SIZE = y) :
    ∃ f, click_cell field px py = some f ∧ Rect f rows cols ∧
      ∀ y1 x1, read f y1 x1 =
        if y1 = y ∧ x1 = x then some (flip_cell (cell field y x)) else read field y1 x1 := by
  obtain ⟨c, hc⟩ := hG.exists_read hy hx
  have hcell := read_some_cell hc
  have hneg : ¬ ((x : Int) < 0 ∨ (y : Int) < 0) := by omega
  unfold click_cell
  simp only [hpx, hpy, if_neg hneg, Int.toNat_ofNat, hc]
  rw [hcell]
  cases c with
  | DEAD =>
    obtain ⟨f, h1, h2, h3⟩ := write_eq_some hG hy hx Cell.ALIVE
    exact ⟨f, by simp [h1], h2, by simpa [flip_cell] using h3⟩
  | ALIVE =>
    obtain ⟨f, h1, h2, h3⟩ := write_eq_some hG hy hx Cell.DEAD
    exact ⟨f, by simp [h1], h2, by simpa [flip_cell] using h3⟩

theorem flip_cell_flip_cell (c : Cell) : flip_cell (flip_cell c) = c := by
  cases c <;> rfl

/-- Claim C11. On a rectangular grid, a click whose computed indices are an in-range
`(row, col)` makes the handler return a grid of the same dimensions in which the cell at
`(row, col)` went from `DEAD` to `ALIVE` or from `ALIVE` to `DEAD` and every other position
reads as before; a second click at the same place gives back the original grid. -/
theorem click_flips_one_cell (field : field_t) (rows cols : Nat) (hG : Rect field rows cols)
    (px py : Int) (row col : Nat) (hrow : row < rows) (hcol : col < cols)
    (hpx : Int.tdiv px CELL_SIZE = col) (hpy : Int.tdiv py CELL_SIZE = row) :
    ∃ f, click_cell field px py = some f ∧ Rect f rows cols ∧
      ((read field row col = some Cell.DEAD ∧ read f row col = some Cell.ALIVE) ∨
        (read field row col = some Cell.ALIVE ∧ read f row col = some Cell.DEAD)) ∧
      (∀ y x, ¬ (y = row ∧ x = col) → read f y x = read field y x) ∧
      click_cell f px py = some field := by
  obtain ⟨f, h1, h2, h3⟩ := click_cell_eq hG px py hrow hcol hpx hpy
  obtain ⟨g, g1, g2, g3⟩ := click_cell_eq h2 px py hrow hcol hpx hpy
  refine ⟨f, h1, h2, ?_, ?_, ?_⟩
  · obtain ⟨c, hc⟩ := hG.exists_read hrow hcol
    have hf := h3 row col
    rw [if_pos ⟨rfl, rfl⟩, read_some_cell hc] at hf
    cases c with
    | DEAD => exact Or.inl ⟨hc, hf⟩
    | ALIVE => exact Or.inr ⟨hc, hf⟩
  · intro y x hne
    rw [h3 y x, if_neg hne]
  · rw [g1]
    congr 1
    apply Rect.ext g2 hG
    intro y x _ _
    rw [g3 y x]
    by_cases hyx : y = row ∧ x = col
    · obtain ⟨e1, e2⟩ := hyx
      subst e1 e2
      have hf := h3 y x
      rw [if_pos ⟨rfl, rfl⟩] at hf
      rw [if_pos ⟨rfl, rfl⟩, read_some_cell hf, flip_cell_flip_cell, hG.read_eq_cell hrow hcol]
    · rw [if_neg hyx, h3 y x, if_neg hyx]

theorem click_flips_one_cell_witness :
    ∃ f, click_cell [[Cell.DEAD, Cell.ALIVE], [Cell.DEAD, Cell.DEAD]] 30 10 = some f ∧
      Rect f 2 2 ∧
      ((read [[Cell.DEAD, Cell.ALIVE], [Cell.DEAD, Cell.DEAD]] 0 1 = some Cell.DEAD ∧
          read f 0 1 = some Cell.ALIVE) ∨
        (read [[Cell.DEAD, Cell.ALIVE], [Cell.DEAD, Cell.DEAD]] 0 1 = some Cell.ALIVE ∧
          read f 0 1 = some Cell.DEAD)) ∧
      (∀ y x, ¬ (y = 0 ∧ x = 1) →
        read f y x = read [[Cell.DEAD, Cell.ALIVE], [Cell.DEAD, Cell.DEAD]] y x) ∧
      click_cell f 30 10 = some [[Cell.DEAD, Cell.ALIVE], [Cell.DEAD, Cell.DEAD]] :=
  click_flips_one_cell [[Cell.DEAD, Cell.ALIVE], [Cell.DEAD, Cell.DEAD]] 2 2 (by decide)
    30 10 0 1 (by decide) (by decide) (by decide) (by decide)

/-! ## Dimensions of a loaded grid -/

/-- Claim C13, counterexample. The source made of one empty line loads successfully, as a
grid with one row and no column. -/
theorem read_field_from_file_empty_line_counterexample :
    read_field_from_file [[]] = Except.ok [[]] ∧ Rect [[]] 1 0 ∧
      ¬ (1 ≤ (([[]] : field_t).headD []).length) := by
  refine ⟨?_, by decide, by decide⟩
  rw [read_field_from_file_eq]
  simp

/-- Claim C13, amended. Every grid produced by a successful `read_field_from_file` has at
least one row, one row per line, and every row of the first line's length; it has at least
one column exactly when the first line is not the empty string. -/
theorem read_field_from_file_dimensions (lines : List (List Char)) (f : field_t)
    (h : read_field_from_file lines = Except.ok f) :
    1 ≤ f.length ∧
      ∃ first rest, lines = first :: rest ∧ Rect f (rest.length + 1) first.length ∧
        (1 ≤ first.length ↔ first ≠ []) := by
  rw [read_field_from_file_eq] at h
  cases lines with
  | nil => simp at h
  | cons first rest =>
    by_cases hall : ∀ line ∈ rest, line.length = first.length
    · simp only [if_pos hall] at h
      injection h with h
      subst h
      refine ⟨by simp, first, rest, rfl, ⟨by simp, ?_⟩, ?_⟩
      · intro row hrow
        simp only [List.mem_map] at hrow
        obtain ⟨line, hl, rfl⟩ := hrow
        rcases List.mem_cons.mp hl with e | e
        · simp [e]
        · simpa using hall line e
      · cases first with
        | nil => simp
        | cons a t => simp
    · simp [if_neg hall] at h

theorem read_field_from_file_dimensions_witness :
    1 ≤ ([[Cell.ALIVE, Cell.DEAD]] : field_t).length ∧
      ∃ first rest, [['#', '.']] = first :: rest ∧
        Rect [[Cell.ALIVE, Cell.DEAD]] (rest.length + 1) first.length ∧
        (1 ≤ first.length ↔ first ≠ []) :=
  read_field_from_file_dimensions [['#', '.']] [[Cell.ALIVE, Cell.DEAD]]
    (by rw [read_field_from_file_eq]; simp [cell_of_char])

/-! ## The rule under a reused buffer -/

/-- Claim C15. On every call of `next_step` on a rectangular grid, whatever the static
buffer of the grid's dimensions holds: a `DEAD` cell with exactly 3 live neighbours is
`ALIVE` in the result, an `ALIVE` cell with exactly 2 is `ALIVE`, an `ALIVE` cell with 0
or 1 is `DEAD`, and an `ALIVE` cell with 4 or more is `DEAD`. -/
theorem next_step_rule_cases (G : field_t) (rows cols : Nat) (hG : Rect G rows cols)
    (hr : 0 < rows) (s : Option field_t) (hs : BufferFits s rows cols) :
    ∃ R, next_step s G = some R ∧
      ∀ row col, row < rows → col < cols →
        (read G row col = some Cell.DEAD → alive_neighbors G row col = 3 →
          read R row col = some Cell.ALIVE) ∧
        (read G row col = some Cell.ALIVE → alive_neighbors G row col = 2 →
          read R row col = some Cell.ALIVE) ∧
        (read G row col = some Cell.ALIVE →
          alive_neighbors G row col = 0 ∨ alive_neighbors G row col = 1 →
          read R row col = some Cell.DEAD) ∧
        (read G row col = some Cell.ALIVE → 4 ≤ alive_neighbors G row col →
          read R row col = some Cell.DEAD) := by
  obtain ⟨R, h1, _, h3⟩ := next_step_eq hG hr s hs
  refine ⟨R, h1, ?_⟩
  intro row col hrow hcol
  rw [h3 row col hrow hcol]
  refine ⟨?_, ?_, ?_, ?_⟩
  · intro hc hn
    rw [read_some_cell hc, hn]
    rfl
  · intro hc hn
    rw [read_some_cell hc, hn]
    rfl
  · intro hc hn
    rw [read_some_cell hc]
    rcases hn with hn | hn <;> rw [hn] <;> rfl
  · intro hc hn
    rw [read_some_cell hc]
    simp only [next_cell]
    rw [if_pos (by omega)]

theorem next_step_rule_cases_witness :
    ∃ R, next_step (some [[Cell.ALIVE, Cell.ALIVE], [Cell.ALIVE, Cell.ALIVE]])
        [[Cell.ALIVE, Cell.ALIVE], [Cell.ALIVE, Cell.DEAD]] = some R ∧
      ∀ row col, row < 2 → col < 2 →
        (read [[Cell.ALIVE, Cell.ALIVE], [Cell.ALIVE, Cell.DEAD]] row col = some Cell.DEAD →
          alive_neighbors [[Cell.ALIVE, Cell.ALIVE], [Cell.ALIVE, Cell.DEAD]] row col = 3 →
          read R row col = some Cell.ALIVE) ∧
        (read [[Cell.ALIVE, Cell.ALIVE], [Cell.ALIVE, Cell.DEAD]] row col = some Cell.ALIVE →
          alive_neighbors [[Cell.ALIVE, Cell.ALIVE], [Cell.ALIVE, Cell.DEAD]] row col = 2 →
          read R row col = some Cell.ALIVE) ∧
        (read [[Cell.ALIVE, Cell.ALIVE], [Cell.ALIVE, Cell.DEAD]] row col = some Cell.ALIVE →
          alive_neighbors [[Cell.ALIVE, Cell.ALIVE], [Cell.ALIVE, Cell.DEAD]] row col = 0 ∨
            alive_neighbors [[Cell.ALIVE, Cell.ALIVE], [Cell.ALIVE, Cell.DEAD]] row col = 1 →
          read R row col = some Cell.DEAD) ∧
        (read [[Cell.ALIVE, Cell.ALIVE], [Cell.ALIVE, Cell.DEAD]] row col = some Cell.ALIVE →
          4 ≤ alive_neighbors [[Cell.ALIVE, Cell.ALIVE], [Cell.ALIVE, Cell.DEAD]] row col →
          read R row col = some Cell.DEAD) :=
  next_step_rule_cases [[Cell.ALIVE, Cell.ALIVE], [Cell.ALIVE, Cell.DEAD]] 2 2 (by decide)
    (by decide) (some [[Cell.ALIVE, Cell.ALIVE], [Cell.ALIVE, Cell.ALIVE]])
    (show Rect [[Cell.ALIVE, Cell.ALIVE], [Cell.ALIVE, Cell.ALIVE]] 2 2 by decide)

theorem rect_zero_rows {G : field_t} {cols : Nat} (h : Rect G 0 cols) : G = [] :=
  List.eq_nil_of_length_eq_zero h.1

/-- Claim C18. For every rectangular grid `G` and every content `B` of the static buffer
with the dimensions of `G`, the grid returned by `next_step` holds at `(row, col)` the
value of the Game-of-Life rule when the cell of `G` is `ALIVE` or its count is exactly 3,
and otherwise exactly the value `B` held at `(row, col)`; hence the result is the
reference step of `G` whenever `B` is `DEAD` at every position where `G` is `DEAD`. -/
theorem next_step_reused_buffer (G B : field_t) (rows cols : Nat) (hG : Rect G rows cols)
    (hB : Rect B rows cols) :
    ∃ R, next_step (some B) G = some R ∧ Rect R rows cols ∧
      (∀ row col, row < rows → col < cols →
        (read G row col = some Cell.ALIVE ∨ alive_neighbors G row col = 3 →
          read R row col = some (rule (cell G row col) (alive_neighbors G row col))) ∧
        (read G row col = some Cell.DEAD → alive_neighbors G row col ≠ 3 →
          read R row col = read B row col)) ∧
      ((∀ row col, row < rows → col < cols → read G row col = some Cell.DEAD →
          read B row col = some Cell.DEAD) → R = reference_step G) := by
  rcases Nat.eq_zero_or_pos rows with h0 | hr
  · subst h0
    have eG := rect_zero_rows hG
    have eB := rect_zero_rows hB
    subst eG eB
    refine ⟨[], by simp [next_step], hB, ?_, ?_⟩
    · intro row col hrow
      omega
    · intro _
      rfl
  · obtain ⟨R, h1, h2, h3⟩ := next_step_eq hG hr (some B) hB
    refine ⟨R, h1, h2, ?_, ?_⟩
    · intro row col hrow hcol
      rw [h3 row col hrow hcol]
      constructor
      · intro h
        rw [next_cell_eq_rule]
        intro hd hn
        rcases h with h | h
        · rw [read_some_cell h] at hd
          exact Cell.noConfusion hd
        · exact absurd h hn
      · intro hd hn
        rw [read_some_cell hd, hB.read_eq_cell hrow hcol]
        simp [next_cell, hn, buffer_cell]
    · intro hdead
      have hs : Settled (some B) G rows cols := by
        refine ⟨hB, ?_⟩
        intro y x hy hx hc
        have hread : read G y x = some Cell.DEAD := by
          rw [hG.read_eq_cell hy hx, hc]
        exact read_some_cell (hdead y x hy hx hread)
      have h4 := next_step_settled hG hr (some B) hs
      rw [h1] at h4
      injection h4

theorem next_step_reused_buffer_witness :
    ∃ R, next_step (some [[Cell.ALIVE, Cell.ALIVE], [Cell.ALIVE, Cell.ALIVE]])
        [[Cell.DEAD, Cell.DEAD], [Cell.DEAD, Cell.DEAD]] = some R ∧ Rect R 2 2 ∧
      (∀ row col, row < 2 → col < 2 →
        (read [[Cell.DEAD, Cell.DEAD], [Cell.DEAD, Cell.DEAD]] row col = some Cell.ALIVE ∨
            alive_neighbors [[Cell.DEAD, Cell.DEAD], [Cell.DEAD, Cell.DEAD]] row col = 3 →
          read R row col =
            some (rule (cell [[Cell.DEAD, Cell.DEAD], [Cell.DEAD, Cell.DEAD]] row col)
              (alive_neighbors [[Cell.DEAD, Cell.DEAD], [Cell.DEAD, Cell.DEAD]] row col))) ∧
        (read [[Cell.DEAD, Cell.DEAD], [Cell.DEAD, Cell.DEAD]] row col = some Cell.DEAD →
          alive_neighbors [[Cell.DEAD, Cell.DEAD], [Cell.DEAD, Cell.DEAD]] row col ≠ 3 →
          read R row col =
            read [[Cell.ALIVE, Cell.ALIVE], [Cell.ALIVE, Cell.ALIVE]] row col)) ∧
      ((∀ row col, row < 2 → col < 2 →
          read [[Cell.DEAD, Cell.DEAD], [Cell.DEAD, Cell.DEAD]] row col = some Cell.DEAD →
          read [[Cell.ALIVE, Cell.ALIVE], [Cell.ALIVE, Cell.ALIVE]] row col = some Cell.DEAD) →
        R = reference_step [[Cell.DEAD, Cell.DEAD], [Cell.DEAD, Cell.DEAD]]) :=
  next_step_reused_buffer [[Cell.DEAD, Cell.DEAD], [Cell.DEAD, Cell.DEAD]]
    [[Cell.ALIVE, Cell.ALIVE], [Cell.ALIVE, Cell.ALIVE]] 2 2 (by decide) (by decide)

/-! ## Boundary handling -/

theorem in_field_iff {G : field_t} {rows cols : Nat} (hG : Rect G rows cols) (hr : 0 < rows)
    (nx ny : Int) :
    in_field G nx ny = true ↔ 0 ≤ nx ∧ nx < cols ∧ 0 ≤ ny ∧ ny < rows := by
  unfold in_field
  rw [hG.back_size_eq hr, hG.1]
  simp only [ge_iff_le, Bool.and_eq_true, decide_eq_true_eq]
  tauto

theorem sum_indicator_le_length {α : Type} (p : α → Bool) (l : List α) :
    (l.map (fun a => if p a then 1 else 0)).sum ≤ l.length := by
  induction l with
  | nil => simp
  | cons a t ih =>
    simp only [List.map_cons, List.sum_cons, List.length_cons]
    split <;> omega

theorem sum_indicator_le_sum {α : Type} (p q : α → Bool) (h : ∀ a, p a = true → q a = true)
    (l : List α) :
    (l.map (fun a => if p a then 1 else 0)).sum ≤ (l.map (fun a => if q a then 1 else 0)).sum := by
  induction l with
  | nil => simp
  | cons a t ih =>
    simp only [List.map_cons, List.sum_cons]
    by_cases hp : p a = true
    · rw [if_pos hp, if_pos (h a hp)]
      omega
    · rw [if_neg hp]
      split <;> omega

/-- Claim C14. In `next_step` on a rectangular grid with at least one row and one column,
for every cell `(x, y)`: a neighbour position that passes `in_field` lies inside the grid
and its read `field[ny][nx]` is in range; a position that does not pass leaves the count
as it is; the count never fails and is the number of in-grid `ALIVE` neighbours, at most
the number of positions considered; and that number is at most 8, at most 5 for a cell on
the border and at most 3 for a corner cell. -/
theorem next_step_boundary (G : field_t) (rows cols : Nat) (hG : Rect G rows cols)
    (hr : 1 ≤ rows) (hc : 1 ≤ cols) (x y : Nat) (hy : y < rows) (hx : x < cols) :
    (∀ s ∈ shifts, in_field G ((x : Int) + s.1) ((y : Int) + s.2) = true →
      0 ≤ (y : Int) + s.2 ∧ (y : Int) + s.2 < rows ∧ 0 ≤ (x : Int) + s.1 ∧
        (x : Int) + s.1 < cols ∧
        ∃ c, read G ((y : Int) + s.2).toNat ((x : Int) + s.1).toNat = some c) ∧
      (∀ s acc, in_field G ((x : Int) + s.1) ((y : Int) + s.2) = false →
        count_shift G x y acc s = some acc) ∧
      count_neighbours G x y = some (alive_neighbors G y x) ∧
      alive_neighbors G y x ≤ considered G x y ∧
      considered G x y ≤ 8 ∧
      ((y = 0 ∨ y + 1 = rows ∨ x = 0 ∨ x + 1 = cols) → considered G x y ≤ 5) ∧
      (((y = 0 ∨ y + 1 = rows) ∧ (x = 0 ∨ x + 1 = cols)) → considered G x y ≤ 3) := by
  have _ := hc
  have _ := hy
  have _ := hx
  have hin := in_field_iff hG hr
  refine ⟨?_, ?_, count_neighbours_eq hG hr x y, ?_, ?_, ?_, ?_⟩
  · intro s _ hs
    obtain ⟨h1, h2, h3, h4⟩ := (hin _ _).mp hs
    exact ⟨h3, h4, h1, h2, hG.exists_read (by omega) (by omega)⟩
  · intro s acc hs
    simp [count_shift, hs]
  · have hrw : alive_neighbors G y x =
        (shifts.map (fun s =>
          if alive_at G ((y : Int) + s.2) ((x : Int) + s.1) then 1 else 0)).sum := by
      have h1 := count_neighbours_eq hG hr x y
      unfold count_neighbours at h1
      rw [foldlM_add _ _ (fun acc s => count_shift_eq hG hr x y acc s)] at h1
      injection h1 with h1
      omega
    have hle := sum_indicator_le_sum
      (fun s : Int × Int => alive_at G ((y : Int) + s.2) ((x : Int) + s.1))
      (fun s : Int × Int => in_field G ((x : Int) + s.1) ((y : Int) + s.2))
      (by
        intro s hs
        obtain ⟨h1, h2, h3, h4, _⟩ := (alive_at_iff hG hr _ _).mp hs
        exact (hin _ _).mpr ⟨h3, h4, h1, h2⟩) shifts
    rw [hrw]
    unfold considered
    exact hle
  · have hle := sum_indicator_le_length
      (fun s : Int × Int => in_field G ((x : Int) + s.1) ((y : Int) + s.2)) shifts
    have hlen : shifts.length = 8 := rfl
    rw [hlen] at hle
    unfold considered
    exact hle
  · intro hb
    simp only [considered, shifts, List.map_cons, List.map_nil, List.sum_cons, List.sum_nil,
      hin]
    rcases hb with h | h | h | h <;>
      simp (disch := omega) only [if_neg] <;> split_ifs <;> omega
  · intro hb
    simp only [considered, shifts, List.map_cons, List.map_nil, List.sum_cons, List.sum_nil,
      hin]
    rcases hb with ⟨h1 | h1, h2 | h2⟩ <;>
      simp (disch := omega) only [if_neg] <;> split_ifs <;> omega

theorem next_step_boundary_witness :
    (∀ s ∈ shifts, in_field [[Cell.ALIVE, Cell.ALIVE], [Cell.ALIVE, Cell.DEAD]]
        (((0 : Nat) : Int) + s.1) (((0 : Nat) : Int) + s.2) = true →
      0 ≤ ((0 : Nat) : Int) + s.2 ∧ ((0 : Nat) : Int) + s.2 < (2 : Nat) ∧
        0 ≤ ((0 : Nat) : Int) + s.1 ∧ ((0 : Nat) : Int) + s.1 < (2 : Nat) ∧
        ∃ c, read [[Cell.ALIVE, Cell.ALIVE], [Cell.ALIVE, Cell.DEAD]]
          (((0 : Nat) : Int) + s.2).toNat (((0 : Nat) : Int) + s.1).toNat = some c) ∧
      (∀ s acc, in_field [[Cell.ALIVE, Cell.ALIVE], [Cell.ALIVE, Cell.DEAD]]
          (((0 : Nat) : Int) + s.1) (((0 : Nat) : Int) + s.2) = false →
        count_shift [[Cell.ALIVE, Cell.ALIVE], [Cell.ALIVE, Cell.DEAD]] 0 0 acc s = some acc) ∧
      count_neighbours [[Cell.ALIVE, Cell.ALIVE], [Cell.ALIVE, Cell.DEAD]] 0 0 =
        some (alive_neighbors [[Cell.ALIVE, Cell.ALIVE], [Cell.ALIVE, Cell.DEAD]] 0 0) ∧
      alive_neighbors [[Cell.ALIVE, Cell.ALIVE], [Cell.ALIVE, Cell.DEAD]] 0 0 ≤
        considered [[Cell.ALIVE, Cell.ALIVE], [Cell.ALIVE, Cell.DEAD]] 0 0 ∧
      considered [[Cell.ALIVE, Cell.ALIVE], [Cell.ALIVE, Cell.DEAD]] 0 0 ≤ 8 ∧
      (((0 : Nat) = 0 ∨ 0 + 1 = 2 ∨ (0 : Nat) = 0 ∨ 0 + 1 = 2) →
        considered [[Cell.ALIVE, Cell.ALIVE], [Cell.ALIVE, Cell.DEAD]] 0 0 ≤ 5) ∧
      ((((0 : Nat) = 0 ∨ 0 + 1 = 2) ∧ ((0 : Nat) = 0 ∨ 0 + 1 = 2)) →
        considered [[Cell.ALIVE, Cell.ALIVE], [Cell.ALIVE, Cell.DEAD]] 0 0 ≤ 3) :=
  next_step_boundary [[Cell.ALIVE, Cell.ALIVE], [Cell.ALIVE, Cell.DEAD]] 2 2 (by decide)
    (by decide) (by decide) 0 0 (by decide) (by decide)

/-! ## Clicks and the range of their indices -/

/-- The click handler returns exactly when the indices it computes are inside the grid;
it performs no check of its own. -/
theorem click_cell_some_iff {field : field_t} {rows cols : Nat} (hG : Rect field rows cols)
    (px py : Int) :
    (∃ f, click_cell field px py = some f) ↔
      0 ≤ Int.tdiv px CELL_SIZE ∧ Int.tdiv px CELL_SIZE < cols ∧
        0 ≤ Int.tdiv py CELL_SIZE ∧ Int.tdiv py CELL_SIZE < rows := by
  constructor
  · rintro ⟨f, hf⟩
    unfold click_cell at hf
    simp only at hf
    by_cases hneg : Int.tdiv px CELL_SIZE < 0 ∨ Int.tdiv py CELL_SIZE < 0
    · rw [if_pos hneg] at hf
      exact Option.noConfusion hf
    · rw [if_neg hneg] at hf
      by_cases hy : (Int.tdiv py CELL_SIZE).toNat < rows
      · by_cases hx : (Int.tdiv px CELL_SIZE).toNat < cols
        · omega
        · rw [hG.read_eq_none_of_cols _ (by omega)] at hf
          exact Option.noConfusion hf
      · rw [read_eq_none_of_rows _ (by rw [hG.1]; omega)] at hf
        exact Option.noConfusion hf
  · rintro ⟨h1, h2, h3, h4⟩
    obtain ⟨f, hf, _, _⟩ := click_cell_eq hG px py
      (y := (Int.tdiv py CELL_SIZE).toNat) (x := (Int.tdiv px CELL_SIZE).toNat)
      (by omega) (by omega) (by omega) (by omega)
    exact ⟨f, hf⟩

/-- Claim C17, counterexample. On the default 40 x 40 grid a click reported at the pointer
position `(1000, 0)` computes the column index `1000 / 25 = 40`, which is not below the 40
columns of the grid, and the handler accesses `field[0][40]` out of range. -/
theorem click_out_of_range_counterexample :
    Rect default_field 40 40 ∧ Int.tdiv 1000 CELL_SIZE = 40 ∧
      ¬ (Int.tdiv 1000 CELL_SIZE < (40 : Nat)) ∧ read default_field 0 40 = none ∧
      click_cell default_field 1000 0 = none := by
  refine ⟨rect_replicate 40 40 Cell.DEAD, by decide, by decide, ?_, ?_⟩
  · exact (rect_replicate 40 40 Cell.DEAD).read_eq_none_of_cols 0 (Nat.le_refl 40)
  · cases h : click_cell default_field 1000 0 with
    | none => rfl
    | some f =>
      have h1 := (click_cell_some_iff (rect_replicate 40 40 Cell.DEAD) 1000 0).mp ⟨f, h⟩
      have h2 : Int.tdiv 1000 CELL_SIZE = 40 := by decide
      omega

/-- Claim C17, amended. The shell uses the indices `x / 25` and `y / 25` (truncated) as it
computes them, without a range check: on a rectangular grid the access
`field[y / 25][x / 25]` of the click handler is in range exactly when
`0 <= x / 25 < cols` and `0 <= y / 25 < rows`; this is the case for every pointer position
inside the window, `0 <= x < 25 * cols` and `0 <= y < 25 * rows`. -/
theorem click_in_range_iff (field : field_t) (rows cols : Nat) (hG : Rect field rows cols)
    (px py : Int) :
    ((∃ f, click_cell field px py = some f) ↔
      0 ≤ Int.tdiv px CELL_SIZE ∧ Int.tdiv px CELL_SIZE < cols ∧
        0 ≤ Int.tdiv py CELL_SIZE ∧ Int.tdiv py CELL_SIZE < rows) ∧
      (0 ≤ px ∧ px < CELL_SIZE * cols ∧ 0 ≤ py ∧ py < CELL_SIZE * rows →
        ∃ f, click_cell field px py = some f) := by
  refine ⟨click_cell_some_iff hG px py, ?_⟩
  rintro ⟨h1, h2, h3, h4⟩
  apply (click_cell_some_iff hG px py).mpr
  have hc : CELL_SIZE = 25 := rfl
  rw [hc] at h2 h4 ⊢
  rw [Int.tdiv_eq_ediv h1 (by decide), Int.tdiv_eq_ediv h3 (by decide)]
  omega

theorem click_in_range_iff_witness :
    ((∃ f, click_cell [[Cell.DEAD, Cell.ALIVE], [Cell.DEAD, Cell.DEAD]] 30 10 = some f) ↔
      0 ≤ Int.tdiv 30 CELL_SIZE ∧ Int.tdiv 30 CELL_SIZE < (2 : Nat) ∧
        0 ≤ Int.tdiv 10 CELL_SIZE ∧ Int.tdiv 10 CELL_SIZE < (2 : Nat)) ∧
      (0 ≤ (30 : Int) ∧ (30 : Int) < CELL_SIZE * (2 : Nat) ∧ 0 ≤ (10 : Int) ∧
          (10 : Int) < CELL_SIZE * (2 : Nat) →
        ∃ f, click_cell [[Cell.DEAD, Cell.ALIVE], [Cell.DEAD, Cell.DEAD]] 30 10 = some f) :=
  click_in_range_iff [[Cell.DEAD, Cell.ALIVE], [Cell.DEAD, Cell.DEAD]] 2 2 (by decide) 30 10

/-! ## Clicks while playing -/

/-- Claim C16. In a state with `play` true and a grid that is not all `DEAD`, an iteration
of the frame loop without Enter ignores the click: whether a click occurred or not, and
wherever, the iteration executes `field = next_step(field)` on the grid held at its start,
keeps `play` true, and ends in the same state. -/
theorem edits_ignored_while_playing (s : Sim) (rows cols : Nat) (hG : Rect s.field rows cols)
    (hr : 0 < rows) (hb : BufferFits s.next_field rows cols) (hplay : s.play = true)
    (hne : is_field_empty s.field = false) :
    ∃ R, next_step s.next_field s.field = some R ∧
      ∀ click : Option (Int × Int),
        frame s ⟨click, false⟩ =
          some { field := R, play := true, next_field := some R, steps := s.steps + 1 } := by
  obtain ⟨R, h1, _, _⟩ := next_step_eq hG hr s.next_field hb
  refine ⟨R, h1, ?_⟩
  intro click
  simp [frame, edit_phase, hplay, hne, h1]

theorem edits_ignored_while_playing_witness :
    ∃ R, next_step (some [[Cell.ALIVE, Cell.ALIVE], [Cell.ALIVE, Cell.ALIVE]])
        [[Cell.ALIVE, Cell.ALIVE], [Cell.ALIVE, Cell.ALIVE]] = some R ∧
      ∀ click : Option (Int × Int),
        frame ⟨[[Cell.ALIVE, Cell.ALIVE], [Cell.ALIVE, Cell.ALIVE]], true,
            some [[Cell.ALIVE, Cell.ALIVE], [Cell.ALIVE, Cell.ALIVE]], 1⟩ ⟨click, false⟩ =
          some { field := R, play := true, next_field := some R, steps := 1 + 1 } :=
  edits_ignored_while_playing
    ⟨[[Cell.ALIVE, Cell.ALIVE], [Cell.ALIVE, Cell.ALIVE]], true,
      some [[Cell.ALIVE, Cell.ALIVE], [Cell.ALIVE, Cell.ALIVE]], 1⟩ 2 2 (by decide) (by decide)
    (show Rect [[Cell.ALIVE, Cell.ALIVE], [Cell.ALIVE, Cell.ALIVE]] 2 2 by decide) rfl
    (by decide)

/-! ## The shape of the grid along a run -/

theorem read_field_from_file_rect {lines : List (List Char)} {f : field_t}
    (h : read_field_from_file lines = Except.ok f) :
    0 < f.length ∧ Rect f f.length (cols_of f) := by
  rw [read_field_from_file_eq] at h
  cases lines with
  | nil => simp at h
  | cons first rest =>
    by_cases hall : ∀ line ∈ rest, line.length = first.length
    · simp only [if_pos hall] at h
      injection h with h
      subst h
      refine ⟨by simp, rfl, ?_⟩
      intro row hrow
      simp only [List.mem_map] at hrow
      obtain ⟨line, hl, rfl⟩ := hrow
      rcases List.mem_cons.mp hl with e | e
      · simp [e, cols_of]
      · simpa [cols_of] using hall line e
    · simp [if_neg hall] at h

theorem initial_grid_rect {G : field_t} (h : InitialGrid G) :
    0 < G.length ∧ Rect G G.length (cols_of G) := by
  rcases h with h | ⟨lines, h⟩
  · subst h
    exact ⟨by decide, rect_replicate 40 40 Cell.DEAD⟩
  · exact read_field_from_file_rect h

/-- One operation keeps the dimensions of the grid and of the static buffer. -/
theorem exec_op_shape {rows cols : Nat} (hr : 0 < rows) {st : field_t × Option field_t}
    (h1 : Rect st.1 rows cols) (h2 : BufferFits st.2 rows cols) {op : Op}
    (hop : OpInRange rows cols op) :
    ∃ st1, exec_op st op = some st1 ∧ Rect st1.1 rows cols ∧ BufferFits st1.2 rows cols := by
  cases op with
  | toggle px py =>
    have hin : 0 ≤ Int.tdiv px CELL_SIZE ∧ Int.tdiv px CELL_SIZE < cols ∧
        0 ≤ Int.tdiv py CELL_SIZE ∧ Int.tdiv py CELL_SIZE < rows := hop
    obtain ⟨a1, a2, a3, a4⟩ := hin
    obtain ⟨g, hg, hrect, _⟩ := click_cell_eq h1 px py
      (y := (Int.tdiv py CELL_SIZE).toNat) (x := (Int.tdiv px CELL_SIZE).toNat)
      (by omega) (by omega) (by omega) (by omega)
    exact ⟨(g, st.2), by simp [exec_op, hg], hrect, h2⟩
  | step =>
    obtain ⟨R, hR, hrect, _⟩ := next_step_eq h1 hr st.2 h2
    exact ⟨(R, some R), by simp [exec_op, hR], hrect, hrect⟩

theorem exec_shape {rows cols : Nat} (hr : 0 < rows) (ops : List Op)
    (st : field_t × Option field_t) (h1 : Rect st.1 rows cols)
    (h2 : BufferFits st.2 rows cols) (hops : ∀ op ∈ ops, OpInRange rows cols op) :
    ∃ st1, exec st ops = some st1 ∧ Rect st1.1 rows cols ∧ BufferFits st1.2 rows cols := by
  induction ops generalizing st with
  | nil => exact ⟨st, rfl, h1, h2⟩
  | cons op rest ih =>
    obtain ⟨st1, e1, r1, b1⟩ := exec_op_shape hr h1 h2 (hops op (List.mem_cons_self op rest))
    obtain ⟨st2, e2, r2, b2⟩ := ih st1 r1 b1
      (fun o ho => hops o (List.mem_cons_of_mem op ho))
    exact ⟨st2, by simp [exec, e1, e2], r2, b2⟩

/-- The edit branch of a frame keeps the dimensions of the grid. -/
theorem edit_phase_shape {rows cols : Nat} {field f : field_t} {play p : Bool}
    {click : Option (Int × Int)} (h1 : Rect field rows cols)
    (h : edit_phase field play click = some (f, p)) : Rect f rows cols := by
  unfold edit_phase at h
  by_cases hb : (!play || is_field_empty field) = true
  · rw [if_pos hb] at h
    cases click with
    | none =>
      simp only [Option.some.injEq, Prod.mk.injEq] at h
      rw [← h.1]
      exact h1
    | some pos =>
      obtain ⟨px, py⟩ := pos
      simp only at h
      cases hcc : click_cell field px py with
      | none => simp [hcc] at h
      | some g =>
        simp only [hcc, Option.some.injEq, Prod.mk.injEq] at h
        have hin := (click_cell_some_iff h1 px py).mp ⟨g, hcc⟩
        obtain ⟨g1, hg1, hrect, _⟩ := click_cell_eq h1 px py
          (y := (Int.tdiv py CELL_SIZE).toNat) (x := (Int.tdiv px CELL_SIZE).toNat)
          (by omega) (by omega) (by omega) (by omega)
        rw [hcc] at hg1
        injection hg1 with hg1
        rw [← h.1, hg1]
        exact hrect
  · rw [if_neg hb] at h
    simp only [Option.some.injEq, Prod.mk.injEq] at h
    rw [← h.1]
    exact h1

/-- A frame keeps the dimensions of the grid and of the static buffer. -/
theorem frame_shape {rows cols : Nat} (hr : 0 < rows) {s s1 : Sim} {inp : Input}
    (h1 : Rect s.field rows cols) (h2 : BufferFits s.next_field rows cols)
    (h : frame s inp = some s1) :
    Rect s1.field rows cols ∧ BufferFits s1.next_field rows cols := by
  unfold frame at h
  cases hedit : edit_phase s.field s.play inp.click with
  | none => simp [hedit] at h
  | some fp =>
    obtain ⟨f, p⟩ := fp
    have hf := edit_phase_shape h1 hedit
    simp only [hedit] at h
    by_cases hplay : (if inp.enter = true then !p else p) = true
    · rw [if_pos hplay] at h
      obtain ⟨R, hR, hrect, _⟩ := next_step_eq hf hr s.next_field h2
      simp only [hR, Option.some.injEq] at h
      subst h
      exact ⟨hrect, hrect⟩
    · rw [if_neg hplay] at h
      simp only [Option.some.injEq] at h
      subst h
      exact ⟨hf, h2⟩

theorem run_shape {rows cols : Nat} (hr : 0 < rows) (inputs : List Input) (s s1 : Sim)
    (h1 : Rect s.field rows cols) (h2 : BufferFits s.next_field rows cols)
    (h : run s inputs = some s1) :
    Rect s1.field rows cols ∧ BufferFits s1.next_field rows cols := by
  induction inputs generalizing s with
  | nil =>
    simp only [run, Option.some.injEq] at h
    subst h
    exact ⟨h1, h2⟩
  | cons inp rest ih =>
    unfold run at h
    cases hf : frame s inp with
    | none => simp [hf] at h
    | some s2 =>
      simp only [hf] at h
      obtain ⟨r2, b2⟩ := frame_shape hr h1 h2 hf
      exact ih s2 r2 b2 h

/-- Claim C12. The grid `main` starts from, the default 40 x 40 grid or a successfully
loaded pattern, is rectangular with at least one row; every finite sequence of in-range
cell toggles and `next_step` calls runs without an out-of-range access and leaves a
rectangular grid with the initial number of rows and columns, and so does every run of the
frame loop. -/
theorem grid_shape_invariant (G : field_t) (hstart : InitialGrid G) :
    1 ≤ G.length ∧ Rect G G.length (cols_of G) ∧
      (G = default_field → G.length = 40 ∧ cols_of G = 40) ∧
      (∀ ops : List Op, (∀ op ∈ ops, OpInRange G.length (cols_of G) op) →
        ∃ f b, exec (G, none) ops = some (f, b) ∧ Rect f G.length (cols_of G)) ∧
      (∀ inputs s, run (start G) inputs = some s → Rect s.field G.length (cols_of G)) := by
  obtain ⟨hr, hG⟩ := initial_grid_rect hstart
  refine ⟨hr, hG, ?_, ?_, ?_⟩
  · intro h
    subst h
    exact ⟨by decide, by decide⟩
  · intro ops hops
    obtain ⟨st1, e1, r1, _⟩ := exec_shape hr ops (G, none) hG trivial hops
    exact ⟨st1.1, st1.2, e1, r1⟩
  · intro inputs s h
    exact (run_shape hr inputs (start G) s hG trivial h).1

theorem grid_shape_invariant_witness :
    1 ≤ default_field.length ∧ Rect default_field default_field.length (cols_of default_field) ∧
      (default_field = default_field →
        default_field.length = 40 ∧ cols_of default_field = 40) ∧
      (∀ ops : List Op,
        (∀ op ∈ ops, OpInRange default_field.length (cols_of default_field) op) →
        ∃ f b, exec (default_field, none) ops = some (f, b) ∧
          Rect f default_field.length (cols_of default_field)) ∧
      (∀ inputs s, run (start default_field) inputs = some s →
        Rect s.field default_field.length (cols_of default_field)) :=
  grid_shape_invariant default_field (Or.inl rfl)

/-! ## Runs in which cells are only added -/

/-- An edit that turns no `ALIVE` cell `DEAD` keeps the static buffer settled. -/
theorem edit_phase_settled {rows cols : Nat} {field f : field_t} {b : Option field_t}
    (h1 : Rect field rows cols) (hs : Settled b field rows cols)
    (hkeep : ∀ y x, read field y x = some Cell.ALIVE → read f y x = some Cell.ALIVE) :
    Settled b f rows cols := by
  refine ⟨hs.1, ?_⟩
  intro y x hy hx hdead
  apply hs.2 y x hy hx
  cases hc : cell field y x with
  | DEAD => rfl
  | ALIVE =>
    have hread : read field y x = some Cell.ALIVE := by
      rw [h1.read_eq_cell hy hx, hc]
    have := read_some_cell (hkeep y x hread)
    rw [hdead] at this
    exact Cell.noConfusion this

/-- A frame in which no click turns an `ALIVE` cell `DEAD` keeps the grid rectangular and
the static buffer settled for the grid held. -/
theorem frame_settled {rows cols : Nat} (hr : 0 < rows) {s s1 : Sim} {inp : Input}
    (h1 : Rect s.field rows cols) (hs : Settled s.next_field s.field rows cols)
    (hadd : AddOnly s inp) (h : frame s inp = some s1) :
    Rect s1.field rows cols ∧ Settled s1.next_field s1.field rows cols := by
  unfold frame at h
  cases hedit : edit_phase s.field s.play inp.click with
  | none => simp [hedit] at h
  | some fp =>
    obtain ⟨f, p⟩ := fp
    have hf := edit_phase_shape h1 hedit
    have hsf := edit_phase_settled h1 hs (hadd f p hedit)
    simp only [hedit] at h
    by_cases hplay : (if inp.enter = true then !p else p) = true
    · rw [if_pos hplay, next_step_settled hf hr s.next_field hsf] at h
      simp only [Option.some.injEq] at h
      subst h
      exact ⟨rect_reference_step hf hr, settled_self (rect_reference_step hf hr)⟩
    · rw [if_neg hplay] at h
      simp only [Option.some.injEq] at h
      subst h
      exact ⟨hf, hsf⟩

theorem add_only_reachable_settled {G : field_t} {rows cols : Nat} (hr : 0 < rows)
    (hG : Rect G rows cols) {s : Sim} (h : AddOnlyReachable G s) :
    Rect s.field rows cols ∧ Settled s.next_field s.field rows cols := by
  induction h with
  | init => exact ⟨hG, settled_none G rows cols⟩
  | next s s1 inp _ hadd hframe ih => exact frame_settled hr ih.1 ih.2 hadd hframe

/-- Claim C19. In a run of the frame loop from the default grid or a loaded grid in which
no click turns an `ALIVE` cell `DEAD`, every execution of `field = next_step(field)`
replaces the grid held at that moment, `f`, by exactly its reference Game-of-Life step,
however play and pause toggles, cell additions and steps were interleaved before. -/
theorem add_only_steps_are_reference (G : field_t) (hstart : InitialGrid G) (s : Sim)
    (hreach : AddOnlyReachable G s) (inp : Input) (hadd : AddOnly s inp) (f : field_t)
    (p : Bool) (hedit : edit_phase s.field s.play inp.click = some (f, p))
    (hplay : (if inp.enter then !p else p) = true) :
    next_step s.next_field f = some (reference_step f) ∧
      frame s inp =
        some { field := reference_step f, play := true,
               next_field := some (reference_step f), steps := s.steps + 1 } := by
  obtain ⟨hr, hG⟩ := initial_grid_rect hstart
  obtain ⟨h1, hs⟩ := add_only_reachable_settled hr hG hreach
  have hf := edit_phase_shape h1 hedit
  have hsf := edit_phase_settled h1 hs (hadd f p hedit)
  have hstep := next_step_settled hf hr s.next_field hsf
  refine ⟨hstep, ?_⟩
  unfold frame
  simp only [hedit]
  rw [if_pos hplay, hstep, hplay]

theorem add_only_steps_are_reference_witness :
    next_step (start [[Cell.ALIVE, Cell.ALIVE], [Cell.ALIVE, Cell.DEAD]]).next_field
        [[Cell.ALIVE, Cell.ALIVE], [Cell.ALIVE, Cell.DEAD]] =
        some (reference_step [[Cell.ALIVE, Cell.ALIVE], [Cell.ALIVE, Cell.DEAD]]) ∧
      frame (start [[Cell.ALIVE, Cell.ALIVE], [Cell.ALIVE, Cell.DEAD]]) ⟨none, true⟩ =
        some { field := reference_step [[Cell.ALIVE, Cell.ALIVE], [Cell.ALIVE, Cell.DEAD]],
               play := true,
               next_field :=
                 some (reference_step [[Cell.ALIVE, Cell.ALIVE], [Cell.ALIVE, Cell.DEAD]]),
               steps := (start [[Cell.ALIVE, Cell.ALIVE], [Cell.ALIVE, Cell.DEAD]]).steps + 1 } :=
  add_only_steps_are_reference [[Cell.ALIVE, Cell.ALIVE], [Cell.ALIVE, Cell.DEAD]]
    (Or.inr ⟨[['#', '#'], ['#', '.']], by rw [read_field_from_file_eq]; simp [cell_of_char]⟩)
    (start [[Cell.ALIVE, Cell.ALIVE], [Cell.ALIVE, Cell.DEAD]]) AddOnlyReachable.init
    ⟨none, true⟩
    (by
      intro f p h y x hread
      have h2 : f = [[Cell.ALIVE, Cell.ALIVE], [Cell.ALIVE, Cell.DEAD]] := by
        simp [edit_phase, start] at h
        exact h.1.symm
      rw [h2]
      exact hread)
    [[Cell.ALIVE, Cell.ALIVE], [Cell.ALIVE, Cell.DEAD]] false (by decide) rfl

end Life
